import Mathlib

/-!
# Shared-state mesh replication (`cookbook/distributed/distributed_mesh2.cpp`)

A shallow embedding of the mesh codec (`meshSerialize`, `meshDeserialize`) and of the
two branches of `MyApp::onAnimate`, followed by the properties proved about them.

Conventions of the embedding.

* A `float` is an IEEE-754 binary32 value, represented by its bit pattern; copying a
  `float` copies the pattern.
* `Mesh::Index` is `unsigned int` and `SynthVoice::id()` returns `int` (both declared in
  the allolib headers the file includes); the slot field `id` is `uint16_t`.
* Behaviour that C++ leaves undefined (an access outside `meshData[0..63]`, a
  `float` to `unsigned int` conversion whose truncated value is not representable) is
  the result `none`; every other result is `some _`.
* The `size_t` sum in the capacity test of `meshSerialize` is taken over the naturals:
  the three sizes are sizes of `std::vector`s, bounded by `max_size()`, so the sum
  cannot wrap around.
-/

namespace DistributedMesh2

/-! ## Constants and data model -/

/-- The constant `maxMeshDataSize`: number of floats in a slot payload. -/
abbrev maxMeshDataSize : Nat := 64

/-- The constant `maxVoices`: number of slots in the shared state. -/
abbrev maxVoices : Nat := 3

/-- A `float`, given by its IEEE-754 binary32 bit pattern
(bit 31 sign, bits 30..23 biased exponent, bits 22..0 fraction). -/
structure F32 where
  bits : Nat
deriving DecidableEq, Repr

/-- The vertex type `Vec3f`: three floats. -/
structure Vec3f where
  x : F32
  y : F32
  z : F32
deriving DecidableEq, Repr

/-- The colour type `Color`: four floats. -/
structure Color where
  r : F32
  g : F32
  b : F32
  a : F32
deriving DecidableEq, Repr

/-- The part of `Mesh` the codec touches: `vertices()`, `indices()` (each an
`unsigned int`) and `colors()`. -/
structure Mesh where
  vertices : List Vec3f
  indices : List Nat
  colors : List Color
deriving DecidableEq, Repr

/-- The array `float meshData[maxMeshDataSize]`. -/
abbrev MeshData := Fin maxMeshDataSize → F32

/-- The record `SerializedMesh`; `id` is the `uint16_t` field, the three counts are `size_t`. -/
structure SerializedMesh where
  id : Nat
  meshData : MeshData
  meshVertices : Nat
  meshIndeces : Nat
  meshColors : Nat

/-- The record `SharedState`: `SerializedMesh meshes[maxVoices]`. -/
structure SharedState where
  meshes : Fin maxVoices → SerializedMesh

/-- A `MeshVoice` as the tick sees it: the value of `id()` (an `int`) and its mesh. -/
structure MeshVoice where
  id : Int
  mesh : Mesh
deriving DecidableEq, Repr

/-! ## Scalar conversions -/

/-- Index of the leading one bit of `n`, for `0 < n < 2 ^ fuel`. -/
def ilog2 : Nat → Nat → Nat
  | 0, _ => 0
  | fuel + 1, n => if n < 2 then 0 else ilog2 fuel (n / 2) + 1

/-- Conversion `unsigned int` to `float`, as in `*meshData++ = index`: the nearest
binary32 value, ties to even (24 significant bits). -/
def u32ToF32 (n : Nat) : F32 :=
  if n = 0 then ⟨0⟩
  else
    let e := ilog2 32 n
    if e ≤ 23 then ⟨(e + 127) * 2 ^ 23 + (n * 2 ^ (23 - e) - 2 ^ 23)⟩
    else
      let s := e - 23
      let q := n / 2 ^ s
      let r := n % 2 ^ s
      let h := 2 ^ (s - 1)
      let q' := if h < r ∨ (r = h ∧ q % 2 = 1) then q + 1 else q
      ⟨(e + 127) * 2 ^ 23 + (q' - 2 ^ 23)⟩

/-- Conversion `float` to `unsigned int`, as in `index = *meshData++`: truncation
toward zero; `none` where the truncated value is not representable (undefined in C++),
which includes infinities and NaN. -/
def f32ToU32 (f : F32) : Option Nat :=
  let sign := f.bits / 2 ^ 31 % 2
  let ex := f.bits / 2 ^ 23 % 256
  let m := f.bits % 2 ^ 23
  if ex = 255 then none
  else if ex < 127 then some 0
  else
    let t := if 150 ≤ ex then (2 ^ 23 + m) * 2 ^ (ex - 150) else (2 ^ 23 + m) / 2 ^ (150 - ex)
    if sign = 1 then none
    else if 2 ^ 32 ≤ t then none
    else some t

/-- Conversion `int` to `uint16_t`, as in `state().meshes[counter].id = voice->id()`. -/
def toU16 (i : Int) : Nat := (i % 65536).toNat

/-! ## Payload access -/

/-- The store `*meshData++ = v` at offset `p` of the payload. -/
def wr (meshData : MeshData) (p : Nat) (v : F32) : Option MeshData :=
  if p < maxMeshDataSize then some (fun i => if i.val = p then v else meshData i) else none

/-- The load `*meshData++` at offset `p` of the payload. -/
def rd (meshData : MeshData) (p : Nat) : Option F32 :=
  if h : p < maxMeshDataSize then some (meshData ⟨p, h⟩) else none

/-! ## `meshSerialize` -/

/-- The loop `for (auto vertex : mesh.vertices())` of `meshSerialize`, from offset `p`. -/
def serializeVertices : List Vec3f → MeshData → Nat → Option (MeshData × Nat)
  | [], d, p => some (d, p)
  | v :: vs, d, p =>
    (wr d p v.x).bind fun d1 =>
    (wr d1 (p + 1) v.y).bind fun d2 =>
    (wr d2 (p + 2) v.z).bind fun d3 =>
    serializeVertices vs d3 (p + 3)

/-- The loop `for (auto index : mesh.indices())` of `meshSerialize`, from offset `p`. -/
def serializeIndices : List Nat → MeshData → Nat → Option (MeshData × Nat)
  | [], d, p => some (d, p)
  | i :: is, d, p =>
    (wr d p (u32ToF32 i)).bind fun d1 =>
    serializeIndices is d1 (p + 1)

/-- The loop `for (auto color : mesh.colors())` of `meshSerialize`, from offset `p`. -/
def serializeColors : List Color → MeshData → Nat → Option (MeshData × Nat)
  | [], d, p => some (d, p)
  | c :: cs, d, p =>
    (wr d p c.r).bind fun d1 =>
    (wr d1 (p + 1) c.g).bind fun d2 =>
    (wr d2 (p + 2) c.b).bind fun d3 =>
    (wr d3 (p + 3) c.a).bind fun d4 =>
    serializeColors cs d4 (p + 4)

/-- The function `meshSerialize`: from the mesh and the payload it is given, the payload
and the values of `numVertices`, `numIndices`, `numColors` it leaves. -/
def meshSerialize (mesh : Mesh) (meshData : MeshData) : Option (MeshData × Nat × Nat × Nat) :=
  if mesh.vertices.length * 3 + mesh.indices.length + mesh.colors.length * 4 > maxMeshDataSize then
    some (meshData, 0, 0, 0)
  else
    (serializeVertices mesh.vertices meshData 0).bind fun r1 =>
    (serializeIndices mesh.indices r1.1 r1.2).bind fun r2 =>
    (serializeColors mesh.colors r2.1 r2.2).bind fun r3 =>
    some (r3.1, mesh.vertices.length, mesh.indices.length, mesh.colors.length)

/-! ## `meshDeserialize` -/

/-- The call `std::vector::resize(n)`: keep the first `n` elements, pad with
value-initialised ones. -/
def resize {α : Type} (xs : List α) (n : Nat) (dflt : α) : List α :=
  xs.take n ++ List.replicate (n - xs.length) dflt

/-- A value-initialised `Vec3f` (all zero). -/
def Vec3f.zero : Vec3f := ⟨⟨0⟩, ⟨0⟩, ⟨0⟩⟩

/-- A default-constructed `Color` (opaque white, `1.0f` four times). -/
def Color.white : Color := ⟨⟨1065353216⟩, ⟨1065353216⟩, ⟨1065353216⟩, ⟨1065353216⟩⟩

/-- The loop `for (auto &vertex : mesh.vertices())` of `meshDeserialize`, from offset `p`:
the three components of every element are overwritten. -/
def deserializeVertices : List Vec3f → MeshData → Nat → Option (List Vec3f × Nat)
  | [], _, p => some ([], p)
  | _ :: vs, d, p =>
    (rd d p).bind fun x =>
    (rd d (p + 1)).bind fun y =>
    (rd d (p + 2)).bind fun z =>
    (deserializeVertices vs d (p + 3)).bind fun r =>
    some (⟨x, y, z⟩ :: r.1, r.2)

/-- The loop `for (auto &index : mesh.indices())` of `meshDeserialize`, from offset `p`. -/
def deserializeIndices : List Nat → MeshData → Nat → Option (List Nat × Nat)
  | [], _, p => some ([], p)
  | _ :: is, d, p =>
    (rd d p).bind fun f =>
    (f32ToU32 f).bind fun i =>
    (deserializeIndices is d (p + 1)).bind fun r =>
    some (i :: r.1, r.2)

/-- The loop `for (auto &color : mesh.colors())` of `meshDeserialize`, from offset `p`:
the four components of every element are overwritten. -/
def deserializeColors : List Color → MeshData → Nat → Option (List Color × Nat)
  | [], _, p => some ([], p)
  | _ :: cs, d, p =>
    (rd d p).bind fun r =>
    (rd d (p + 1)).bind fun g =>
    (rd d (p + 2)).bind fun b =>
    (rd d (p + 3)).bind fun a =>
    (deserializeColors cs d (p + 4)).bind fun rest =>
    some (⟨r, g, b, a⟩ :: rest.1, rest.2)

/-- The function `meshDeserialize`: the mesh it leaves in `mesh`. -/
def meshDeserialize (mesh : Mesh) (meshData : MeshData) (numVertices numIndices numColors : Nat) :
    Option Mesh :=
  (deserializeVertices (resize mesh.vertices numVertices Vec3f.zero) meshData 0).bind fun r1 =>
  (deserializeIndices (resize mesh.indices numIndices 0) meshData r1.2).bind fun r2 =>
  (deserializeColors (resize mesh.colors numColors Color.white) meshData r2.2).bind fun r3 =>
  some ⟨r1.1, r2.1, r3.1⟩

/-! ## `MyApp::onAnimate` -/

/-- The loop `while (voice && counter < maxVoices)` of the primary branch. -/
def primaryLoop : List MeshVoice → Nat → SharedState → Option SharedState
  | [], _, st => some st
  | v :: rest, counter, st =>
    if h : counter < maxVoices then
      (meshSerialize v.mesh (st.meshes ⟨counter, h⟩).meshData).bind fun r =>
      primaryLoop rest (counter + 1)
        ⟨fun i => if i.val = counter then ⟨toU16 v.id, r.1, r.2.1, r.2.2.1, r.2.2.2⟩
          else st.meshes i⟩
    else some st

/-- The primary branch of `onAnimate` on the list of active voices (in the order of the
linked list `scene.getActiveVoices()`). -/
def onAnimatePrimary (st : SharedState) (voices : List MeshVoice) : Option SharedState :=
  primaryLoop voices 0 st

/-- The loop `for (size_t i = 0; i < maxVoices; i++)` of the replica branch, from
position `i` with `fuel` iterations left: the slot `m` it selects, if any. -/
def findSlot (st : SharedState) (vid : Int) : Nat → Nat → Option (Fin maxVoices)
  | 0, _ => none
  | fuel + 1, i =>
    if h : i < maxVoices then
      if ((st.meshes ⟨i, h⟩).id : Int) = vid then some ⟨i, h⟩
      else findSlot st vid fuel (i + 1)
    else none

/-- The line written to `std::cerr` when no slot carries the id of a voice. -/
def unexpectedIdMsg : String := "ERROR: unexpeceted voice id"

/-- The loop `while (voice)` of the replica branch: the voices as it leaves them and the
lines written to `std::cerr`, in order. -/
def replicaLoop (st : SharedState) : List MeshVoice → Option (List MeshVoice × List String)
  | [] => some ([], [])
  | v :: rest =>
    match findSlot st v.id maxVoices 0 with
    | some i =>
      (meshDeserialize v.mesh (st.meshes i).meshData (st.meshes i).meshVertices
        (st.meshes i).meshIndeces (st.meshes i).meshColors).bind fun mesh' =>
      (replicaLoop st rest).bind fun r =>
      some (⟨v.id, mesh'⟩ :: r.1, r.2)
    | none =>
      (replicaLoop st rest).bind fun r =>
      some (v :: r.1, unexpectedIdMsg :: r.2)

/-- The replica branch of `onAnimate` on the list of local active voices. -/
def onAnimateReplica (st : SharedState) (voices : List MeshVoice) :
    Option (List MeshVoice × List String) :=
  replicaLoop st voices

/-- The method `MyApp::onAnimate` after `scene.update(dt)`: the branch is chosen by
`isPrimary()`. The primary branch writes the shared state and leaves the voices; the
replica branch only reads the shared state, and writes the voices and `std::cerr`. -/
def onAnimate (primary : Bool) (st : SharedState) (voices : List MeshVoice) :
    Option (SharedState × List MeshVoice × List String) :=
  if primary then (onAnimatePrimary st voices).map fun st' => (st', voices, [])
  else (onAnimateReplica st voices).map fun r => (st, r.1, r.2)

/-! ## Auxiliary notions used in the statements -/

/-- The `unsigned int` values that a `float` holds exactly: below `2 ^ 32` with at most
24 significant bits, that is `m * 2 ^ s` with `m < 2 ^ 24` and `s ≤ 8`. Every value up
to `2 ^ 24` is one. -/
def F32Exact (n : Nat) : Prop := ∃ s, s ≤ 8 ∧ 2 ^ s ∣ n ∧ n < 2 ^ (24 + s)

/-- A payload of zeros. -/
def MeshData.zero : MeshData := fun _ => ⟨0⟩

/-- The mesh with no vertices, indices or colours. -/
def Mesh.empty : Mesh := ⟨[], [], []⟩

/-- The shared state as constructed: ids and counts are 0 (member initialisers). -/
def SharedState.init : SharedState := ⟨fun _ => ⟨0, MeshData.zero, 0, 0, 0⟩⟩

/-- A sample mesh: one vertex, two indices, one colour (9 payload elements). -/
def sampleMesh : Mesh :=
  ⟨[⟨⟨1065353216⟩, ⟨1073741824⟩, ⟨1077936128⟩⟩], [0, 16777216],
    [⟨⟨1065353216⟩, ⟨0⟩, ⟨0⟩, ⟨1065353216⟩⟩]⟩

/-- A sample mesh beyond the capacity: 22 vertices (66 payload elements). -/
def oversizeMesh : Mesh := ⟨List.replicate 22 Vec3f.zero, [], []⟩

/-- A voice with an empty mesh and the given id. -/
def emptyVoice (id : Int) : MeshVoice := ⟨id, Mesh.empty⟩

/-- A shared state whose last slot is left over from an earlier tick: it carries id 7
and an empty geometry; the other two slots are as constructed. -/
def staleState : SharedState :=
  ⟨fun i => if i.val = 2 then ⟨7, MeshData.zero, 0, 0, 0⟩ else ⟨0, MeshData.zero, 0, 0, 0⟩⟩

/-- Entity A of the scenario: id 5, four vertices, no index, four colours. -/
def scenarioA (v0 v1 v2 v3 : Vec3f) (c0 c1 c2 c3 : Color) : MeshVoice :=
  ⟨5, ⟨[v0, v1, v2, v3], [], [c0, c1, c2, c3]⟩⟩

/-- Entity B of the scenario: id 9, empty mesh. -/
def scenarioB : MeshVoice := ⟨9, Mesh.empty⟩

/-- A shared state in which slots 0 and 1 both carry id 5: slot 0 with the one vertex
`(1.0f, 0, 0)`, slot 1 with an empty geometry; slot 2 is as constructed. -/
def sampleState : SharedState :=
  ⟨fun i =>
    if i.val = 0 then ⟨5, fun p => if p.val = 0 then ⟨1065353216⟩ else ⟨0⟩, 1, 0, 0⟩
    else if i.val = 1 then ⟨5, MeshData.zero, 0, 0, 0⟩
    else ⟨0, MeshData.zero, 0, 0, 0⟩⟩

/-- A slot that `meshDeserialize` decodes without leaving defined behaviour: its counts
are within the capacity and every `float` stored where an index is read converts to
`unsigned int`. -/
def SlotDecodable (s : SerializedMesh) : Prop :=
  3 * s.meshVertices + s.meshIndeces + 4 * s.meshColors ≤ maxMeshDataSize ∧
  ∀ j, j < s.meshIndeces → ∀ f, rd s.meshData (3 * s.meshVertices + j) = some f →
    ∃ n, f32ToU32 f = some n

/-- The capacity invariant of a slot: `3*meshVertices + meshIndeces + 4*meshColors` is
at most `maxMeshDataSize`. -/
def SlotFits (s : SerializedMesh) : Prop :=
  3 * s.meshVertices + s.meshIndeces + 4 * s.meshColors ≤ maxMeshDataSize

/-- A run of primary ticks: `onAnimate` on the primary, once per element of `ticks`, each
with the list of voices active at that tick. -/
def primaryTicks : SharedState → List (List MeshVoice) → Option SharedState
  | st, [] => some st
  | st, vs :: ticks => (onAnimatePrimary st vs).bind fun st' => primaryTicks st' ticks

/-- Three voices active at an earlier tick: ids 5, 9 and 7; the voices of ids 5 and 7
carry `sampleMesh`. -/
def earlierVoices : List MeshVoice := [⟨5, sampleMesh⟩, emptyVoice 9, ⟨7, sampleMesh⟩]

/-- The voices active at the next tick, after the voices of ids 9 and 7 were freed. -/
def laterVoices : List MeshVoice := [⟨5, sampleMesh⟩]

/-- The values of `counter` at which the loop of the primary branch indexes
`state().meshes[counter]`, in order, from the value `counter` on. -/
def primaryLoopSlots : List MeshVoice → Nat → List Nat
  | [], _ => []
  | _ :: rest, counter =>
    if counter < maxVoices then counter :: primaryLoopSlots rest (counter + 1) else []

/-! # Theorems -/

/-! ## Payload lemmas -/

theorem rd_eq_some_lt {d : MeshData} {p : Nat} {v : F32} (h : rd d p = some v) : p < 64 := by
  unfold rd at h
  split at h
  · assumption
  · simp at h

theorem wr_of_lt (d : MeshData) (p : Nat) (v : F32) (h : p < 64) :
    wr d p v = some (fun i => if i.val = p then v else d i) := by
  simp [wr, h]

theorem rd_wr {d d' : MeshData} {p : Nat} {v : F32} (h : wr d p v = some d') (q : Nat) :
    rd d' q = if q = p then some v else rd d q := by
  unfold wr at h
  split at h
  · rename_i hp
    have hp' : p < 64 := hp
    cases h
    by_cases hq : q < 64
    · by_cases hqp : q = p
      · subst hqp
        simp [rd, hq]
      · simp [rd, hq, hqp]
    · have : q ≠ p := by omega
      simp [rd, hq, this]
  · simp at h

theorem serializeVertices_spec (vs : List Vec3f) : ∀ (d : MeshData) (p : Nat),
    p + 3 * vs.length ≤ 64 →
    ∃ d', serializeVertices vs d p = some (d', p + 3 * vs.length) ∧
      (∀ q, q < p ∨ p + 3 * vs.length ≤ q → rd d' q = rd d q) ∧
      (∀ k (hk : k < vs.length), rd d' (p + 3 * k) = some vs[k].x ∧
        rd d' (p + 3 * k + 1) = some vs[k].y ∧ rd d' (p + 3 * k + 2) = some vs[k].z) := by
  induction vs with
  | nil =>
    intro d p _
    exact ⟨d, by simp [serializeVertices], fun _ _ => rfl, fun k hk => by simp at hk⟩
  | cons v vs ih =>
    intro d p hp
    simp only [List.length_cons] at hp
    obtain ⟨d', hd', hframe, hval⟩ := ih
      (fun i => if i.val = p + 2 then v.z else
        (fun i => if i.val = p + 1 then v.y else
          (fun i => if i.val = p then v.x else d i) i) i) (p + 3) (by omega)
    have h1 := wr_of_lt d p v.x (by omega)
    have h2 := wr_of_lt (fun i => if i.val = p then v.x else d i) (p + 1) v.y (by omega)
    have h3 := wr_of_lt (fun i => if i.val = p + 1 then v.y else
          (fun i => if i.val = p then v.x else d i) i) (p + 2) v.z (by omega)
    refine ⟨d', ?_, ?_, ?_⟩
    · simp only [serializeVertices, h1, h2, h3, Option.some_bind, hd', List.length_cons]
      congr 2
      omega
    · intro q hq
      simp only [List.length_cons] at hq
      rw [hframe q (by omega), rd_wr h3, rd_wr h2, rd_wr h1]
      have a1 : q ≠ p + 2 := by omega
      have a2 : q ≠ p + 1 := by omega
      have a3 : q ≠ p := by omega
      simp [a1, a2, a3]
    · intro k hk
      cases k with
      | zero =>
        simp only [Nat.mul_zero, Nat.add_zero, List.getElem_cons_zero]
        rw [hframe p (by omega), hframe (p + 1) (by omega), hframe (p + 2) (by omega)]
        rw [rd_wr h3, rd_wr h3, rd_wr h3, rd_wr h2, rd_wr h2, rd_wr h1]
        simp
      | succ k =>
        simp only [List.length_cons, Nat.add_lt_add_iff_right] at hk
        have := hval k hk
        simp only [List.getElem_cons_succ]
        have e1 : p + 3 * (k + 1) = p + 3 + 3 * k := by omega
        rw [e1]
        exact this

theorem serializeIndices_spec (is : List Nat) : ∀ (d : MeshData) (p : Nat),
    p + is.length ≤ 64 →
    ∃ d', serializeIndices is d p = some (d', p + is.length) ∧
      (∀ q, q < p ∨ p + is.length ≤ q → rd d' q = rd d q) ∧
      (∀ k (hk : k < is.length), rd d' (p + k) = some (u32ToF32 is[k])) := by
  induction is with
  | nil =>
    intro d p _
    exact ⟨d, by simp [serializeIndices], fun _ _ => rfl, fun k hk => by simp at hk⟩
  | cons i is ih =>
    intro d p hp
    simp only [List.length_cons] at hp
    obtain ⟨d', hd', hframe, hval⟩ := ih
      (fun j => if j.val = p then u32ToF32 i else d j) (p + 1) (by omega)
    have h1 := wr_of_lt d p (u32ToF32 i) (by omega)
    refine ⟨d', ?_, ?_, ?_⟩
    · simp only [serializeIndices, h1, Option.some_bind, hd', List.length_cons]
      congr 2
      omega
    · intro q hq
      simp only [List.length_cons] at hq
      rw [hframe q (by omega), rd_wr h1]
      have a1 : q ≠ p := by omega
      simp [a1]
    · intro k hk
      cases k with
      | zero =>
        simp only [Nat.add_zero, List.getElem_cons_zero]
        rw [hframe p (by omega), rd_wr h1]
        simp
      | succ k =>
        simp only [List.length_cons, Nat.add_lt_add_iff_right] at hk
        have := hval k hk
        simp only [List.getElem_cons_succ]
        have e1 : p + (k + 1) = p + 1 + k := by omega
        rw [e1]
        exact this

theorem serializeColors_spec (cs : List Color) : ∀ (d : MeshData) (p : Nat),
    p + 4 * cs.length ≤ 64 →
    ∃ d', serializeColors cs d p = some (d', p + 4 * cs.length) ∧
      (∀ q, q < p ∨ p + 4 * cs.length ≤ q → rd d' q = rd d q) ∧
      (∀ k (hk : k < cs.length), rd d' (p + 4 * k) = some cs[k].r ∧
        rd d' (p + 4 * k + 1) = some cs[k].g ∧ rd d' (p + 4 * k + 2) = some cs[k].b ∧
        rd d' (p + 4 * k + 3) = some cs[k].a) := by
  induction cs with
  | nil =>
    intro d p _
    exact ⟨d, by simp [serializeColors], fun _ _ => rfl, fun k hk => by simp at hk⟩
  | cons c cs ih =>
    intro d p hp
    simp only [List.length_cons] at hp
    obtain ⟨d', hd', hframe, hval⟩ := ih
      (fun i => if i.val = p + 3 then c.a else
        (fun i => if i.val = p + 2 then c.b else
          (fun i => if i.val = p + 1 then c.g else
            (fun i => if i.val = p then c.r else d i) i) i) i) (p + 4) (by omega)
    have h1 := wr_of_lt d p c.r (by omega)
    have h2 := wr_of_lt (fun i => if i.val = p then c.r else d i) (p + 1) c.g (by omega)
    have h3 := wr_of_lt (fun i => if i.val = p + 1 then c.g else
          (fun i => if i.val = p then c.r else d i) i) (p + 2) c.b (by omega)
    have h4 := wr_of_lt (fun i => if i.val = p + 2 then c.b else
        (fun i => if i.val = p + 1 then c.g else
          (fun i => if i.val = p then c.r else d i) i) i) (p + 3) c.a (by omega)
    refine ⟨d', ?_, ?_, ?_⟩
    · simp only [serializeColors, h1, h2, h3, h4, Option.some_bind, hd', List.length_cons]
      congr 2
      omega
    · intro q hq
      simp only [List.length_cons] at hq
      rw [hframe q (by omega), rd_wr h4, rd_wr h3, rd_wr h2, rd_wr h1]
      have a0 : q ≠ p + 3 := by omega
      have a1 : q ≠ p + 2 := by omega
      have a2 : q ≠ p + 1 := by omega
      have a3 : q ≠ p := by omega
      simp [a0, a1, a2, a3]
    · intro k hk
      cases k with
      | zero =>
        simp only [Nat.mul_zero, Nat.add_zero, List.getElem_cons_zero]
        rw [hframe p (by omega), hframe (p + 1) (by omega), hframe (p + 2) (by omega),
          hframe (p + 3) (by omega)]
        rw [rd_wr h4, rd_wr h4, rd_wr h4, rd_wr h4, rd_wr h3, rd_wr h3, rd_wr h3,
          rd_wr h2, rd_wr h2, rd_wr h1]
        simp
      | succ k =>
        simp only [List.length_cons, Nat.add_lt_add_iff_right] at hk
        have := hval k hk
        simp only [List.getElem_cons_succ]
        have e1 : p + 4 * (k + 1) = p + 4 + 4 * k := by omega
        rw [e1]
        exact this

/-- Closed description of `meshSerialize` on a mesh within the capacity. -/
theorem meshSerialize_fit (g : Mesh) (d : MeshData)
    (hfit : 3 * g.vertices.length + g.indices.length + 4 * g.colors.length ≤ 64) :
    ∃ d', meshSerialize g d =
        some (d', g.vertices.length, g.indices.length, g.colors.length) ∧
      (∀ q, 3 * g.vertices.length + g.indices.length + 4 * g.colors.length ≤ q →
        rd d' q = rd d q) ∧
      (∀ k (hk : k < g.vertices.length), rd d' (3 * k) = some g.vertices[k].x ∧
        rd d' (3 * k + 1) = some g.vertices[k].y ∧ rd d' (3 * k + 2) = some g.vertices[k].z) ∧
      (∀ j (hj : j < g.indices.length),
        rd d' (3 * g.vertices.length + j) = some (u32ToF32 g.indices[j])) ∧
      (∀ m (hm : m < g.colors.length),
        rd d' (3 * g.vertices.length + g.indices.length + 4 * m) = some g.colors[m].r ∧
        rd d' (3 * g.vertices.length + g.indices.length + 4 * m + 1) = some g.colors[m].g ∧
        rd d' (3 * g.vertices.length + g.indices.length + 4 * m + 2) = some g.colors[m].b ∧
        rd d' (3 * g.vertices.length + g.indices.length + 4 * m + 3) = some g.colors[m].a) := by
  obtain ⟨d1, hd1, hf1, hv1⟩ := serializeVertices_spec g.vertices d 0 (by omega)
  obtain ⟨d2, hd2, hf2, hv2⟩ :=
    serializeIndices_spec g.indices d1 (0 + 3 * g.vertices.length) (by omega)
  obtain ⟨d3, hd3, hf3, hv3⟩ := serializeColors_spec g.colors d2
    (0 + 3 * g.vertices.length + g.indices.length) (by omega)
  have hguard : ¬ (g.vertices.length * 3 + g.indices.length + g.colors.length * 4 > 64) := by
    omega
  refine ⟨d3, ?_, ?_, ?_, ?_, ?_⟩
  · simp only [meshSerialize, hguard, if_false, hd1, Option.some_bind, hd2, hd3]
  · intro q hq
    rw [hf3 q (by omega), hf2 q (by omega), hf1 q (by omega)]
  · intro k hk
    have := hv1 k hk
    simp only [Nat.zero_add] at this
    rw [hf3 _ (by omega), hf3 _ (by omega), hf3 _ (by omega),
      hf2 _ (by omega), hf2 _ (by omega), hf2 _ (by omega)]
    exact this
  · intro j hj
    have := hv2 j hj
    simp only [Nat.zero_add] at this
    rw [hf3 _ (by omega)]
    exact this
  · intro m hm
    have := hv3 m hm
    simp only [Nat.zero_add] at this
    exact this

/-- Description of `meshSerialize` on a mesh beyond the capacity. -/
theorem meshSerialize_over (g : Mesh) (d : MeshData)
    (hbig : 64 < 3 * g.vertices.length + g.indices.length + 4 * g.colors.length) :
    meshSerialize g d = some (d, 0, 0, 0) := by
  have hguard : g.vertices.length * 3 + g.indices.length + g.colors.length * 4 > 64 := by
    omega
  simp only [meshSerialize, hguard, if_true]

/-- The function `meshSerialize` never leaves the payload: it always returns. -/
theorem meshSerialize_total (g : Mesh) (d : MeshData) :
    ∃ r, meshSerialize g d = some r := by
  by_cases h : 3 * g.vertices.length + g.indices.length + 4 * g.colors.length ≤ 64
  · obtain ⟨d', hd', _⟩ := meshSerialize_fit g d h
    exact ⟨_, hd'⟩
  · exact ⟨_, meshSerialize_over g d (by omega)⟩

/-! ## Decoding lemmas -/

theorem length_resize {α : Type} (xs : List α) (n : Nat) (dflt : α) :
    (resize xs n dflt).length = n := by
  simp only [resize, List.length_append, List.length_take, List.length_replicate]
  omega

theorem deserializeVertices_length_only (ts : List Vec3f) : ∀ (ts' : List Vec3f) (d : MeshData)
    (p : Nat), ts.length = ts'.length →
    deserializeVertices ts d p = deserializeVertices ts' d p := by
  induction ts with
  | nil =>
    intro ts' d p h
    cases ts' with
    | nil => rfl
    | cons _ _ => simp at h
  | cons t ts ih =>
    intro ts' d p h
    cases ts' with
    | nil => simp at h
    | cons t' ts' =>
      simp only [List.length_cons, Nat.add_right_cancel_iff] at h
      simp only [deserializeVertices, ih ts' d (p + 3) h]

theorem deserializeIndices_length_only (ts : List Nat) : ∀ (ts' : List Nat) (d : MeshData)
    (p : Nat), ts.length = ts'.length →
    deserializeIndices ts d p = deserializeIndices ts' d p := by
  induction ts with
  | nil =>
    intro ts' d p h
    cases ts' with
    | nil => rfl
    | cons _ _ => simp at h
  | cons t ts ih =>
    intro ts' d p h
    cases ts' with
    | nil => simp at h
    | cons t' ts' =>
      simp only [List.length_cons, Nat.add_right_cancel_iff] at h
      simp only [deserializeIndices, ih ts' d (p + 1) h]

theorem deserializeColors_length_only (ts : List Color) : ∀ (ts' : List Color) (d : MeshData)
    (p : Nat), ts.length = ts'.length →
    deserializeColors ts d p = deserializeColors ts' d p := by
  induction ts with
  | nil =>
    intro ts' d p h
    cases ts' with
    | nil => rfl
    | cons _ _ => simp at h
  | cons t ts ih =>
    intro ts' d p h
    cases ts' with
    | nil => simp at h
    | cons t' ts' =>
      simp only [List.length_cons, Nat.add_right_cancel_iff] at h
      simp only [deserializeColors, ih ts' d (p + 4) h]

/-- The result of `meshDeserialize` does not depend on what the target mesh held. -/
theorem meshDeserialize_target_irrelevant (m1 m2 : Mesh) (d : MeshData) (nv ni nc : Nat) :
    meshDeserialize m1 d nv ni nc = meshDeserialize m2 d nv ni nc := by
  unfold meshDeserialize
  rw [deserializeVertices_length_only (resize m1.vertices nv Vec3f.zero)
      (resize m2.vertices nv Vec3f.zero) d 0 (by simp only [length_resize])]
  congr 1
  funext r1
  rw [deserializeIndices_length_only (resize m1.indices ni 0)
      (resize m2.indices ni 0) d r1.2 (by simp only [length_resize])]
  congr 1
  funext r2
  rw [deserializeColors_length_only (resize m1.colors nc Color.white)
      (resize m2.colors nc Color.white) d r2.2 (by simp only [length_resize])]

theorem deserializeVertices_spec (vs : List Vec3f) : ∀ (ts : List Vec3f) (d : MeshData) (p : Nat),
    ts.length = vs.length →
    (∀ k (hk : k < vs.length), rd d (p + 3 * k) = some vs[k].x ∧
        rd d (p + 3 * k + 1) = some vs[k].y ∧ rd d (p + 3 * k + 2) = some vs[k].z) →
    deserializeVertices ts d p = some (vs, p + 3 * vs.length) := by
  induction vs with
  | nil =>
    intro ts d p h _
    cases ts with
    | nil => simp [deserializeVertices]
    | cons _ _ => simp at h
  | cons v vs ih =>
    intro ts d p h hval
    cases ts with
    | nil => simp at h
    | cons t ts =>
      simp only [List.length_cons, Nat.add_right_cancel_iff] at h
      have h0 := hval 0 (by simp)
      simp only [Nat.mul_zero, Nat.add_zero, List.getElem_cons_zero] at h0
      have hrest := ih ts d (p + 3) h (fun k hk => by
        have := hval (k + 1) (by simp only [List.length_cons]; omega)
        simp only [List.getElem_cons_succ] at this
        have e1 : p + 3 * (k + 1) = p + 3 + 3 * k := by omega
        rw [e1] at this
        exact this)
      simp only [deserializeVertices, h0.1, h0.2.1, h0.2.2, Option.some_bind, hrest,
        List.length_cons]
      congr 2
      omega

theorem deserializeIndices_spec (is : List Nat) : ∀ (ts : List Nat) (d : MeshData) (p : Nat),
    ts.length = is.length →
    (∀ k (hk : k < is.length), ∃ f, rd d (p + k) = some f ∧ f32ToU32 f = some is[k]) →
    deserializeIndices ts d p = some (is, p + is.length) := by
  induction is with
  | nil =>
    intro ts d p h _
    cases ts with
    | nil => simp [deserializeIndices]
    | cons _ _ => simp at h
  | cons i is ih =>
    intro ts d p h hval
    cases ts with
    | nil => simp at h
    | cons t ts =>
      simp only [List.length_cons, Nat.add_right_cancel_iff] at h
      obtain ⟨f, hf, hconv⟩ := hval 0 (by simp)
      simp only [Nat.add_zero, List.getElem_cons_zero] at hf hconv
      have hrest := ih ts d (p + 1) h (fun k hk => by
        have := hval (k + 1) (by simp only [List.length_cons]; omega)
        simp only [List.getElem_cons_succ] at this
        have e1 : p + (k + 1) = p + 1 + k := by omega
        rw [e1] at this
        exact this)
      simp only [deserializeIndices, hf, hconv, Option.some_bind, hrest, List.length_cons]
      congr 2
      omega

theorem deserializeColors_spec (cs : List Color) : ∀ (ts : List Color) (d : MeshData) (p : Nat),
    ts.length = cs.length →
    (∀ k (hk : k < cs.length), rd d (p + 4 * k) = some cs[k].r ∧
        rd d (p + 4 * k + 1) = some cs[k].g ∧ rd d (p + 4 * k + 2) = some cs[k].b ∧
        rd d (p + 4 * k + 3) = some cs[k].a) →
    deserializeColors ts d p = some (cs, p + 4 * cs.length) := by
  induction cs with
  | nil =>
    intro ts d p h _
    cases ts with
    | nil => simp [deserializeColors]
    | cons _ _ => simp at h
  | cons c cs ih =>
    intro ts d p h hval
    cases ts with
    | nil => simp at h
    | cons t ts =>
      simp only [List.length_cons, Nat.add_right_cancel_iff] at h
      have h0 := hval 0 (by simp)
      simp only [Nat.mul_zero, Nat.add_zero, List.getElem_cons_zero] at h0
      have hrest := ih ts d (p + 4) h (fun k hk => by
        have := hval (k + 1) (by simp only [List.length_cons]; omega)
        simp only [List.getElem_cons_succ] at this
        have e1 : p + 4 * (k + 1) = p + 4 + 4 * k := by omega
        rw [e1] at this
        exact this)
      simp only [deserializeColors, h0.1, h0.2.1, h0.2.2.1, h0.2.2.2, Option.some_bind, hrest,
        List.length_cons]
      congr 2
      omega

/-- Decoding a payload whose contents are those of `g`, laid out as `meshSerialize`
does, with the stored indices converting back, yields `g`. -/
theorem meshDeserialize_of_layout (g target : Mesh) (d : MeshData)
    (hv : ∀ k (hk : k < g.vertices.length), rd d (3 * k) = some g.vertices[k].x ∧
        rd d (3 * k + 1) = some g.vertices[k].y ∧ rd d (3 * k + 2) = some g.vertices[k].z)
    (hi : ∀ j (hj : j < g.indices.length), ∃ f,
        rd d (3 * g.vertices.length + j) = some f ∧ f32ToU32 f = some g.indices[j])
    (hc : ∀ m (hm : m < g.colors.length),
        rd d (3 * g.vertices.length + g.indices.length + 4 * m) = some g.colors[m].r ∧
        rd d (3 * g.vertices.length + g.indices.length + 4 * m + 1) = some g.colors[m].g ∧
        rd d (3 * g.vertices.length + g.indices.length + 4 * m + 2) = some g.colors[m].b ∧
        rd d (3 * g.vertices.length + g.indices.length + 4 * m + 3) = some g.colors[m].a) :
    meshDeserialize target d g.vertices.length g.indices.length g.colors.length = some g := by
  have h1 := deserializeVertices_spec g.vertices
    (resize target.vertices g.vertices.length Vec3f.zero) d 0 (length_resize _ _ _)
    (fun k hk => by simpa only [Nat.zero_add] using hv k hk)
  have h2 := deserializeIndices_spec g.indices
    (resize target.indices g.indices.length 0) d (0 + 3 * g.vertices.length)
    (length_resize _ _ _) (fun k hk => by simpa only [Nat.zero_add] using hi k hk)
  have h3 := deserializeColors_spec g.colors
    (resize target.colors g.colors.length Color.white) d
    (0 + 3 * g.vertices.length + g.indices.length)
    (length_resize _ _ _) (fun k hk => by simpa only [Nat.zero_add] using hc k hk)
  simp only [meshDeserialize, h1, Option.some_bind, h2, h3]

/-- Decoding with all three counts zero empties the mesh. -/
theorem meshDeserialize_zero (target : Mesh) (d : MeshData) :
    meshDeserialize target d 0 0 0 = some ⟨[], [], []⟩ := by
  simp [meshDeserialize, resize, deserializeVertices, deserializeIndices, deserializeColors]

/-! ## Scalar conversion lemmas -/

theorem ilog2_spec : ∀ (fuel n : Nat), 0 < n → n < 2 ^ fuel →
    2 ^ ilog2 fuel n ≤ n ∧ n < 2 ^ (ilog2 fuel n + 1) := by
  intro fuel
  induction fuel with
  | zero =>
    intro n h0 h1
    simp at h1
    omega
  | succ fuel ih =>
    intro n h0 h1
    unfold ilog2
    split
    · simp
      omega
    · rename_i h2
      have hlt : n / 2 < 2 ^ fuel := by
        rw [Nat.pow_succ] at h1
        omega
      obtain ⟨a, b⟩ := ih (n / 2) (by omega) hlt
      rw [Nat.pow_succ]
      rw [Nat.pow_succ] at b
      omega

/-- Decoding of a bit pattern with sign 0, biased exponent `ex` in `127 .. 254` and
fraction `m`. -/
theorem f32ToU32_normal (ex m : Nat) (h1 : 127 ≤ ex) (h2 : ex < 255) (hm : m < 2 ^ 23) :
    f32ToU32 ⟨ex * 2 ^ 23 + m⟩ =
      if 2 ^ 32 ≤ (if 150 ≤ ex then (2 ^ 23 + m) * 2 ^ (ex - 150)
          else (2 ^ 23 + m) / 2 ^ (150 - ex)) then none
      else some (if 150 ≤ ex then (2 ^ 23 + m) * 2 ^ (ex - 150)
          else (2 ^ 23 + m) / 2 ^ (150 - ex)) := by
  have hm' : m < 8388608 := by simpa using hm
  have f1 : (ex * 2 ^ 23 + m) / 2 ^ 31 % 2 = 0 := by
    norm_num
    omega
  have f2 : (ex * 2 ^ 23 + m) / 2 ^ 23 % 256 = ex := by
    norm_num
    omega
  have f3 : (ex * 2 ^ 23 + m) % 2 ^ 23 = m := by
    norm_num
    omega
  have g1 : ¬ ex = 255 := by omega
  have g2 : ¬ ex < 127 := by omega
  unfold f32ToU32
  simp only [f1, f2, f3, g1, g2, if_false, Nat.zero_ne_one]

theorem f32ToU32_u32ToF32 (n : Nat) (h : F32Exact n) : f32ToU32 (u32ToF32 n) = some n := by
  obtain ⟨s, hs, hdvd, hlt⟩ := h
  by_cases h0 : n = 0
  · subst h0
    decide
  have hn32 : n < 2 ^ 32 :=
    lt_of_lt_of_le hlt (Nat.pow_le_pow_right (by decide) (by omega))
  obtain ⟨hlo, hhi⟩ := ilog2_spec 32 n (by omega) hn32
  have hdiv : 2 ^ (ilog2 32 n - 23) ∣ n := by
    refine (Nat.pow_dvd_pow 2 ?_).trans hdvd
    have : 2 ^ ilog2 32 n < 2 ^ (24 + s) := lt_of_le_of_lt hlo hlt
    have := (Nat.pow_lt_pow_iff_right (by decide : 1 < 2)).mp this
    omega
  have hle : ilog2 32 n < 32 := by
    have : 2 ^ ilog2 32 n < 2 ^ 32 := lt_of_le_of_lt hlo hn32
    exact (Nat.pow_lt_pow_iff_right (by decide : 1 < 2)).mp this
  unfold u32ToF32
  simp only [h0, if_false]
  generalize ilog2 32 n = e at *
  by_cases he : e ≤ 23
  · simp only [he, if_true]
    have hM1 : 2 ^ 23 ≤ n * 2 ^ (23 - e) := by
      calc 2 ^ 23 = 2 ^ e * 2 ^ (23 - e) := by rw [← Nat.pow_add]; congr 1; omega
        _ ≤ n * 2 ^ (23 - e) := Nat.mul_le_mul_right _ hlo
    have hM2 : n * 2 ^ (23 - e) < 2 ^ 24 := by
      calc n * 2 ^ (23 - e) < 2 ^ (e + 1) * 2 ^ (23 - e) :=
            Nat.mul_lt_mul_of_pos_right hhi (Nat.two_pow_pos _)
        _ = 2 ^ 24 := by rw [← Nat.pow_add]; congr 1; omega
    rw [f32ToU32_normal (e + 127) (n * 2 ^ (23 - e) - 2 ^ 23) (by omega) (by omega)
      (by norm_num at hM1 hM2 ⊢; omega)]
    have hsum : 2 ^ 23 + (n * 2 ^ (23 - e) - 2 ^ 23) = n * 2 ^ (23 - e) := by omega
    rw [hsum]
    by_cases h150 : 150 ≤ e + 127
    · have e23 : e = 23 := by omega
      subst e23
      simp only [h150, if_true]
      norm_num
      norm_num at hn32
      omega
    · simp only [h150, if_false]
      have : 150 - (e + 127) = 23 - e := by omega
      rw [this, Nat.mul_div_cancel _ (Nat.two_pow_pos _)]
      simp only [Nat.not_le.mpr hn32, if_false]
  · simp only [he, if_false]
    have hmod := Nat.mod_eq_zero_of_dvd hdiv
    have hpos : 0 < 2 ^ (e - 23 - 1) := Nat.two_pow_pos _
    have c1 : ¬ (2 ^ (e - 23 - 1) < n % 2 ^ (e - 23) ∨
        n % 2 ^ (e - 23) = 2 ^ (e - 23 - 1) ∧ n / 2 ^ (e - 23) % 2 = 1) := by
      rw [hmod]
      omega
    simp only [c1, if_false]
    have hq : n / 2 ^ (e - 23) * 2 ^ (e - 23) = n := Nat.div_mul_cancel hdiv
    have hq1 : 2 ^ 23 ≤ n / 2 ^ (e - 23) := by
      rw [Nat.le_div_iff_mul_le (Nat.two_pow_pos _), ← Nat.pow_add]
      have : 23 + (e - 23) = e := by omega
      rw [this]
      exact hlo
    have hq2 : n / 2 ^ (e - 23) < 2 ^ 24 := by
      rw [Nat.div_lt_iff_lt_mul (Nat.two_pow_pos _), ← Nat.pow_add]
      have : 24 + (e - 23) = e + 1 := by omega
      rw [this]
      exact hhi
    rw [f32ToU32_normal (e + 127) (n / 2 ^ (e - 23) - 2 ^ 23) (by omega) (by omega)
      (by norm_num at hq1 hq2 ⊢; omega)]
    have hsum : 2 ^ 23 + (n / 2 ^ (e - 23) - 2 ^ 23) = n / 2 ^ (e - 23) := by omega
    have h150 : 150 ≤ e + 127 := by omega
    have hex : e + 127 - 150 = e - 23 := by omega
    rw [hsum]
    simp only [h150, if_true, hex, hq, Nat.not_le.mpr hn32, if_false]

/-- Converse of `f32ToU32_u32ToF32`: an `unsigned int` that survives the conversion to
`float` and back is exactly representable. -/
theorem f32Exact_of_roundtrip (n : Nat) (hn : n < 2 ^ 32)
    (h : f32ToU32 (u32ToF32 n) = some n) : F32Exact n := by
  by_cases h0 : n = 0
  · subst h0
    exact ⟨0, by decide, by simp, by simp⟩
  obtain ⟨hlo, hhi⟩ := ilog2_spec 32 n (by omega) hn
  have hle : ilog2 32 n < 32 := by
    have : 2 ^ ilog2 32 n < 2 ^ 32 := lt_of_le_of_lt hlo hn
    exact (Nat.pow_lt_pow_iff_right (by decide : 1 < 2)).mp this
  unfold u32ToF32 at h
  simp only [h0, if_false] at h
  generalize ilog2 32 n = e at *
  by_cases he : e ≤ 23
  · refine ⟨0, by decide, by simp, ?_⟩
    exact lt_of_lt_of_le hhi (Nat.pow_le_pow_right (by decide) (by omega))
  · simp only [he, if_false] at h
    have hq1 : 2 ^ 23 ≤ n / 2 ^ (e - 23) := by
      rw [Nat.le_div_iff_mul_le (Nat.two_pow_pos _), ← Nat.pow_add]
      have : 23 + (e - 23) = e := by omega
      rw [this]
      exact hlo
    have hq2 : n / 2 ^ (e - 23) < 2 ^ 24 := by
      rw [Nat.div_lt_iff_lt_mul (Nat.two_pow_pos _), ← Nat.pow_add]
      have : 24 + (e - 23) = e + 1 := by omega
      rw [this]
      exact hhi
    have hbound : ∀ q', (q' = n / 2 ^ (e - 23) + 1 ∨ q' = n / 2 ^ (e - 23)) →
        f32ToU32 ⟨(e + 127) * 2 ^ 23 + (q' - 2 ^ 23)⟩ = some n → 2 ^ (e - 23) ∣ n := by
      intro q' hq' hconv
      by_cases hcarry : q' < 2 ^ 24
      · rw [f32ToU32_normal (e + 127) (q' - 2 ^ 23) (by omega) (by omega)
          (by norm_num at hq1 hq2 hcarry ⊢; omega)] at hconv
        have hsum : 2 ^ 23 + (q' - 2 ^ 23) = q' := by omega
        have h150 : 150 ≤ e + 127 := by omega
        have hex : e + 127 - 150 = e - 23 := by omega
        rw [hsum] at hconv
        simp only [h150, if_true, hex] at hconv
        split at hconv
        · exact absurd hconv (by simp)
        · simp only [Option.some.injEq] at hconv
          exact ⟨q', by rw [← hconv, Nat.mul_comm]⟩
      · have hq'eq : q' = 2 ^ 24 := by omega
        have hbits : (e + 127) * 2 ^ 23 + (q' - 2 ^ 23) = (e + 128) * 2 ^ 23 + 0 := by
          rw [hq'eq]
          norm_num
          omega
        rw [hbits, f32ToU32_normal (e + 128) 0 (by omega) (by omega) (by norm_num)] at hconv
        have h150 : 150 ≤ e + 128 := by omega
        have hex : e + 128 - 150 = e - 22 := by omega
        simp only [h150, if_true, hex, Nat.add_zero] at hconv
        split at hconv
        · exact absurd hconv (by simp)
        · simp only [Option.some.injEq] at hconv
          have hsum : 23 + (e - 22) = e + 1 := by omega
          have : 2 ^ 23 * 2 ^ (e - 22) = 2 ^ (e + 1) := by
            rw [← Nat.pow_add, hsum]
          omega
    have hdvd : 2 ^ (e - 23) ∣ n := by
      split at h
      · exact hbound _ (Or.inl rfl) h
      · exact hbound _ (Or.inr rfl) h
    refine ⟨e - 23, by omega, hdvd, ?_⟩
    have : 24 + (e - 23) = e + 1 := by omega
    rw [this]
    exact hhi

/-! ## The primary loop -/

theorem primaryLoop_spec (vs : List MeshVoice) : ∀ (c : Nat) (st : SharedState),
    ∃ st', primaryLoop vs c st = some st' ∧
      (∀ i : Fin maxVoices, i.val < c ∨ c + vs.length ≤ i.val → st'.meshes i = st.meshes i) ∧
      (∀ (i : Fin maxVoices) (k : Nat) (hk : k < vs.length), i.val = c + k →
        ∃ r, meshSerialize vs[k].mesh (st.meshes i).meshData = some r ∧
          st'.meshes i = ⟨toU16 vs[k].id, r.1, r.2.1, r.2.2.1, r.2.2.2⟩) := by
  induction vs with
  | nil =>
    intro c st
    exact ⟨st, rfl, fun _ _ => rfl, fun _ k hk => by simp at hk⟩
  | cons v vs ih =>
    intro c st
    by_cases hc : c < maxVoices
    · obtain ⟨r, hr⟩ := meshSerialize_total v.mesh (st.meshes ⟨c, hc⟩).meshData
      obtain ⟨st', hst', hframe, hval⟩ := ih (c + 1)
        ⟨fun i => if i.val = c then ⟨toU16 v.id, r.1, r.2.1, r.2.2.1, r.2.2.2⟩
          else st.meshes i⟩
      refine ⟨st', ?_, ?_, ?_⟩
      · simp only [primaryLoop, hc, dite_true, hr, Option.some_bind, hst']
      · intro i hi
        simp only [List.length_cons] at hi
        rw [hframe i (by omega)]
        have : i.val ≠ c := by omega
        simp only [this, if_false]
      · intro i k hk hik
        cases k with
        | zero =>
          have hic : i.val = c := by omega
          have hi' : i = ⟨c, hc⟩ := Fin.ext hic
          refine ⟨r, ?_, ?_⟩
          · simp only [List.getElem_cons_zero, hi', hr]
          · rw [hframe i (by omega)]
            simp only [hic, if_true, List.getElem_cons_zero]
        | succ k =>
          simp only [List.length_cons, Nat.add_lt_add_iff_right] at hk
          obtain ⟨r', hr', hst''⟩ := hval i k hk (by omega)
          have hne : i.val ≠ c := by omega
          simp only [hne, if_false] at hr'
          exact ⟨r', by simpa only [List.getElem_cons_succ] using hr',
            by simpa only [List.getElem_cons_succ] using hst''⟩
    · refine ⟨st, ?_, fun _ _ => rfl, ?_⟩
      · simp only [primaryLoop, hc, dite_false]
      · intro i k _ hik
        have := i.isLt
        omega

/-- One primary tick always returns; slot `k` is rewritten from the `k`-th voice for
`k < min n 3`, every other slot is kept. -/
theorem onAnimatePrimary_spec (st : SharedState) (vs : List MeshVoice) :
    ∃ st', onAnimatePrimary st vs = some st' ∧
      (∀ i : Fin maxVoices, vs.length ≤ i.val → st'.meshes i = st.meshes i) ∧
      (∀ (i : Fin maxVoices) (hk : i.val < vs.length),
        ∃ r, meshSerialize vs[i.val].mesh (st.meshes i).meshData = some r ∧
          st'.meshes i = ⟨toU16 vs[i.val].id, r.1, r.2.1, r.2.2.1, r.2.2.2⟩) := by
  obtain ⟨st', h1, h2, h3⟩ := primaryLoop_spec vs 0 st
  refine ⟨st', h1, fun i hi => h2 i (by omega), fun i hk => ?_⟩
  exact h3 i i.val hk (by omega)

theorem toU16_of_range (i : Int) (h0 : 0 ≤ i) (h1 : i < 65536) : ((toU16 i : Nat) : Int) = i := by
  unfold toU16
  rw [Int.toNat_of_nonneg (Int.emod_nonneg _ (by decide))]
  exact Int.emod_eq_of_lt h0 h1

/-! ## The replica loop -/

theorem findSlot_first (st : SharedState) (vid : Int) (i : Fin maxVoices)
    (hid : ((st.meshes i).id : Int) = vid)
    (hfirst : ∀ j : Fin maxVoices, j < i → ((st.meshes j).id : Int) ≠ vid) :
    findSlot st vid maxVoices 0 = some i := by
  have h0 := hfirst 0
  have h1 := hfirst 1
  fin_cases i
  · simp only [findSlot]
    simp at hid
    simp [hid]
  · have a0 := h0 (by decide)
    simp at hid
    simp only [findSlot]
    simp [hid, a0]
  · have a0 := h0 (by decide)
    have a1 := h1 (by decide)
    simp at hid
    simp only [findSlot]
    simp [hid, a0, a1]

theorem findSlot_none (st : SharedState) (vid : Int)
    (hno : ∀ j : Fin maxVoices, ((st.meshes j).id : Int) ≠ vid) :
    findSlot st vid maxVoices 0 = none := by
  have a0 := hno ⟨0, by decide⟩
  have a1 := hno ⟨1, by decide⟩
  have a2 := hno ⟨2, by decide⟩
  simp only [findSlot, Nat.zero_add, Nat.reduceAdd, a0, a1, a2, if_false]
  simp

theorem replicaLoop_length (st : SharedState) (vs : List MeshVoice) :
    ∀ r, replicaLoop st vs = some r → r.1.length = vs.length := by
  induction vs with
  | nil =>
    intro r h
    simp only [replicaLoop, Option.some.injEq] at h
    subst h
    rfl
  | cons v vs ih =>
    intro r h
    unfold replicaLoop at h
    split at h
    · simp only [Option.bind_eq_some] at h
      obtain ⟨m, _, r', hr', h⟩ := h
      simp only [Option.some.injEq] at h
      subst h
      simp [ih r' hr']
    · simp only [Option.bind_eq_some] at h
      obtain ⟨r', hr', h⟩ := h
      simp only [Option.some.injEq] at h
      subst h
      simp [ih r' hr']

theorem replicaLoop_append (st : SharedState) (xs ys : List MeshVoice) :
    replicaLoop st (xs ++ ys) =
      (replicaLoop st xs).bind fun a =>
      (replicaLoop st ys).bind fun b =>
      some (a.1 ++ b.1, a.2 ++ b.2) := by
  induction xs with
  | nil =>
    simp only [List.nil_append, replicaLoop, Option.some_bind]
    cases replicaLoop st ys <;> simp
  | cons v xs ih =>
    have ih' : replicaLoop st (xs.append ys) = _ := ih
    simp only [List.cons_append, replicaLoop]
    split
    · rw [ih']
      cases meshDeserialize _ _ _ _ _ <;> simp only [Option.none_bind, Option.some_bind]
      cases replicaLoop st xs <;> simp only [Option.none_bind, Option.some_bind]
      cases replicaLoop st ys <;> simp only [Option.none_bind, Option.some_bind,
        List.cons_append]
    · rw [ih']
      cases replicaLoop st xs <;> simp only [Option.none_bind, Option.some_bind]
      cases replicaLoop st ys <;> simp only [Option.none_bind, Option.some_bind,
        List.cons_append]

/-! ## Codec properties -/

/-- C1 (as amended). Round trip: for every mesh geometry `g` within the capacity
(`3*|vertices| + |indices| + 4*|colors| <= 64`) whose index values are exactly
representable as a `float` (at most 24 significant bits; every index up to `2^24` is),
every payload `d` and every target mesh, `meshSerialize` returns with the counts of `g`
and `meshDeserialize` on the produced payload and counts returns exactly `g`. -/
theorem meshDeserialize_meshSerialize (g target : Mesh) (d : MeshData)
    (hfit : 3 * g.vertices.length + g.indices.length + 4 * g.colors.length ≤ 64)
    (hexact : ∀ i ∈ g.indices, F32Exact i) :
    ∃ d', meshSerialize g d =
        some (d', g.vertices.length, g.indices.length, g.colors.length) ∧
      meshDeserialize target d' g.vertices.length g.indices.length g.colors.length =
        some g := by
  obtain ⟨d', hd', _, hv, hi, hc⟩ := meshSerialize_fit g d hfit
  refine ⟨d', hd', meshDeserialize_of_layout g target d' hv ?_ hc⟩
  intro j hj
  exact ⟨_, hi j hj, f32ToU32_u32ToF32 _ (hexact _ (List.getElem_mem _))⟩

/-- Witness of C1 (as amended) on `sampleMesh`, zero payload, empty target. -/
theorem meshDeserialize_meshSerialize_witness :
    ∃ d', meshSerialize sampleMesh MeshData.zero = some (d', 1, 2, 1) ∧
      meshDeserialize Mesh.empty d' 1 2 1 = some sampleMesh :=
  meshDeserialize_meshSerialize sampleMesh Mesh.empty MeshData.zero (by decide) (by
    intro i hi
    simp only [sampleMesh, List.mem_cons, List.mem_singleton, List.not_mem_nil, or_false] at hi
    rcases hi with h | h
    · exact ⟨0, by decide, by simp [h], by simp [h]⟩
    · exact ⟨1, by decide, by simp [h]; decide, by simp [h]⟩)

/-- Counterexample to C1 as stated: the one-index mesh with index `16777217 = 2^24 + 1`
fits the capacity, yet serialising it and deserialising the result yields the index
`16777216`. -/
theorem roundtrip_index_16777217 :
    3 * (Mesh.mk [] [16777217] []).vertices.length + (Mesh.mk [] [16777217] []).indices.length
        + 4 * (Mesh.mk [] [16777217] []).colors.length ≤ 64 ∧
    ((meshSerialize ⟨[], [16777217], []⟩ MeshData.zero).bind fun r =>
        meshDeserialize Mesh.empty r.1 r.2.1 r.2.2.1 r.2.2.2) = some ⟨[], [16777216], []⟩ ∧
    (Mesh.mk [] [16777216] []) ≠ ⟨[], [16777217], []⟩ := by
  refine ⟨by decide, by decide, by decide⟩

/-- C2. Capacity boundary: for every mesh geometry with
`3*|vertices| + |indices| + 4*|colors| > 64`, `meshSerialize` sets the three counts to 0
(and leaves the payload as it was); and `meshDeserialize` with counts `(0,0,0)` leaves
the target with empty vertex, index and colour lists, whatever payload and target it is
given. -/
theorem capacity_boundary (g target : Mesh) (d d2 : MeshData)
    (hbig : 64 < 3 * g.vertices.length + g.indices.length + 4 * g.colors.length) :
    meshSerialize g d = some (d, 0, 0, 0) ∧
      meshDeserialize target d2 0 0 0 = some ⟨[], [], []⟩ :=
  ⟨meshSerialize_over g d hbig, meshDeserialize_zero target d2⟩

/-- Witness of C2 on the 22-vertex mesh `oversizeMesh` and the target `sampleMesh`. -/
theorem capacity_boundary_witness :
    64 < 3 * oversizeMesh.vertices.length + oversizeMesh.indices.length
        + 4 * oversizeMesh.colors.length ∧
    meshSerialize oversizeMesh MeshData.zero = some (MeshData.zero, 0, 0, 0) ∧
      meshDeserialize sampleMesh MeshData.zero 0 0 0 = some ⟨[], [], []⟩ :=
  ⟨by decide, capacity_boundary oversizeMesh sampleMesh MeshData.zero MeshData.zero (by decide)⟩

/-- C3. Encode layout: for every mesh geometry within the capacity, `meshSerialize`
returns with `numVertices = |vertices|`, `numIndices = |indices|`, `numColors = |colors|`
and a payload holding vertex `k` at positions `3k .. 3k+2` as `(x, y, z)`, index `j`
(converted to `float`) at position `3*|vertices| + j`, and colour `m` at positions
`3*|vertices| + |indices| + 4m .. +3` as `(r, g, b, a)`. -/
theorem meshSerialize_layout (g : Mesh) (d : MeshData)
    (hfit : 3 * g.vertices.length + g.indices.length + 4 * g.colors.length ≤ 64) :
    ∃ d', meshSerialize g d =
        some (d', g.vertices.length, g.indices.length, g.colors.length) ∧
      (∀ k (hk : k < g.vertices.length), rd d' (3 * k) = some g.vertices[k].x ∧
        rd d' (3 * k + 1) = some g.vertices[k].y ∧ rd d' (3 * k + 2) = some g.vertices[k].z) ∧
      (∀ j (hj : j < g.indices.length),
        rd d' (3 * g.vertices.length + j) = some (u32ToF32 g.indices[j])) ∧
      (∀ m (hm : m < g.colors.length),
        rd d' (3 * g.vertices.length + g.indices.length + 4 * m) = some g.colors[m].r ∧
        rd d' (3 * g.vertices.length + g.indices.length + 4 * m + 1) = some g.colors[m].g ∧
        rd d' (3 * g.vertices.length + g.indices.length + 4 * m + 2) = some g.colors[m].b ∧
        rd d' (3 * g.vertices.length + g.indices.length + 4 * m + 3) = some g.colors[m].a) := by
  obtain ⟨d', hd', _, hv, hi, hc⟩ := meshSerialize_fit g d hfit
  exact ⟨d', hd', hv, hi, hc⟩

/-- Witness of C3 on `sampleMesh`: the nine payload positions it fills. -/
theorem meshSerialize_layout_witness :
    ∃ d', meshSerialize sampleMesh MeshData.zero = some (d', 1, 2, 1) ∧
      rd d' 0 = some ⟨1065353216⟩ ∧ rd d' 1 = some ⟨1073741824⟩ ∧
      rd d' 2 = some ⟨1077936128⟩ ∧
      rd d' 3 = some (u32ToF32 0) ∧ rd d' 4 = some (u32ToF32 16777216) ∧
      rd d' 5 = some ⟨1065353216⟩ ∧ rd d' 6 = some ⟨0⟩ ∧ rd d' 7 = some ⟨0⟩ ∧
      rd d' 8 = some ⟨1065353216⟩ := by
  obtain ⟨d', hd', hv, hi, hc⟩ := meshSerialize_layout sampleMesh MeshData.zero (by decide)
  have v0 := hv 0 (by decide)
  have i0 := hi 0 (by decide)
  have i1 := hi 1 (by decide)
  have c0 := hc 0 (by decide)
  exact ⟨d', hd', v0.1, v0.2.1, v0.2.2, i0, i1, c0.1, c0.2.1, c0.2.2.1, c0.2.2.2⟩

/-! ## Primary tick -/

/-- C4 (as amended). Primary tick: for every prior table and every ordered sequence of
`n` active entities, the primary branch of `onAnimate` returns, and for each
`k < min n 3` slot `k` holds the id of the `k`-th entity converted to `uint16_t` (the id
modulo `65536`, which is the id itself when it lies in `0 .. 65535`) together with the
payload and counts that `meshSerialize` produces for that entity's mesh on the slot's
prior payload. -/
theorem primary_tick_slots (st : SharedState) (vs : List MeshVoice) :
    ∃ st', onAnimatePrimary st vs = some st' ∧
      ∀ (k : Fin maxVoices) (hk : k.val < vs.length),
        ∃ r, meshSerialize vs[k.val].mesh (st.meshes k).meshData = some r ∧
          (st'.meshes k).id = toU16 vs[k.val].id ∧
          (0 ≤ vs[k.val].id → vs[k.val].id < 65536 →
            ((st'.meshes k).id : Int) = vs[k.val].id) ∧
          (st'.meshes k).meshData = r.1 ∧ (st'.meshes k).meshVertices = r.2.1 ∧
          (st'.meshes k).meshIndeces = r.2.2.1 ∧ (st'.meshes k).meshColors = r.2.2.2 := by
  obtain ⟨st', h1, _, h3⟩ := onAnimatePrimary_spec st vs
  refine ⟨st', h1, fun k hk => ?_⟩
  obtain ⟨r, hr, hs⟩ := h3 k hk
  refine ⟨r, hr, ?_, ?_, ?_, ?_, ?_, ?_⟩
  · rw [hs]
  · intro h0 h1
    rw [hs]
    exact toU16_of_range _ h0 h1
  all_goals rw [hs]

/-- Witness of C4 (as amended): one voice with id 5 and `sampleMesh`, on the initial
state. -/
theorem primary_tick_slots_witness :
    ∃ st', onAnimatePrimary SharedState.init [⟨5, sampleMesh⟩] = some st' ∧
      (st'.meshes 0).id = 5 ∧ (st'.meshes 0).meshVertices = 1 ∧
      (st'.meshes 0).meshIndeces = 2 ∧ (st'.meshes 0).meshColors = 1 := by
  obtain ⟨st', h1, h2⟩ := primary_tick_slots SharedState.init [⟨5, sampleMesh⟩]
  obtain ⟨r, hr, hid, _, _, hv, hi, hc⟩ := h2 0 (by decide)
  obtain ⟨d', hd', _⟩ := meshSerialize_fit sampleMesh (SharedState.init.meshes 0).meshData
    (by decide)
  have hr' : meshSerialize sampleMesh (SharedState.init.meshes 0).meshData = some r := hr
  rw [hd'] at hr'
  cases hr'
  exact ⟨st', h1, hid, hv, hi, hc⟩

/-- Counterexample to C4 as stated: with the single active entity of id `65537` (empty
mesh), the primary tick leaves id `1` in slot 0, not the entity's id. -/
theorem primary_tick_id_65537 :
    (onAnimatePrimary SharedState.init [emptyVoice 65537]).map
        (fun st' => ((st'.meshes 0).id : Int)) = some 1 ∧
      (emptyVoice 65537).id ≠ 1 := by
  refine ⟨by decide, by decide⟩

/-- C5 (as amended). Capacity truncation: for every prior table and every sequence of
more than 3 active entities with pairwise distinct ids, the first three of which have
ids in `0 .. 65535`, the primary tick returns, the ids held by the 3 slots are the ids of
the first 3 entities in traversal order, and the replica's id lookup for every entity
after the third finds no slot. -/
theorem capacity_truncation (st : SharedState) (vs : List MeshVoice)
    (hn : 3 < vs.length)
    (huniq : ∀ i j (hi : i < vs.length) (hj : j < vs.length), i ≠ j → vs[i].id ≠ vs[j].id)
    (hrange : ∀ k (hk : k < vs.length), k < 3 → 0 ≤ vs[k].id ∧ vs[k].id < 65536) :
    ∃ st', onAnimatePrimary st vs = some st' ∧
      (∀ (k : Fin maxVoices) (hk : k.val < vs.length),
        ((st'.meshes k).id : Int) = vs[k.val].id) ∧
      (∀ k (hk : k < vs.length), 3 ≤ k → findSlot st' vs[k].id maxVoices 0 = none) := by
  obtain ⟨st', h1, _, h3⟩ := onAnimatePrimary_spec st vs
  have hids : ∀ (k : Fin maxVoices) (hk : k.val < vs.length),
      ((st'.meshes k).id : Int) = vs[k.val].id := by
    intro k hk
    obtain ⟨r, _, hs⟩ := h3 k hk
    rw [hs]
    have := hrange k.val hk k.isLt
    exact toU16_of_range _ this.1 this.2
  refine ⟨st', h1, hids, ?_⟩
  intro k hk hk3
  apply findSlot_none
  intro j
  have hj : j.val < vs.length := lt_trans j.isLt hn
  rw [hids j hj]
  have hj3 : j.val < 3 := j.isLt
  exact huniq j.val k hj hk (by omega)

/-- Witness of C5 (as amended): four entities with ids 5, 9, 7, 4 and empty meshes. -/
theorem capacity_truncation_witness :
    ∃ st', onAnimatePrimary SharedState.init
        [emptyVoice 5, emptyVoice 9, emptyVoice 7, emptyVoice 4] = some st' ∧
      ((st'.meshes 0).id : Int) = 5 ∧ ((st'.meshes 1).id : Int) = 9 ∧
      ((st'.meshes 2).id : Int) = 7 ∧ findSlot st' 4 maxVoices 0 = none := by
  obtain ⟨st', h1, h2, h3⟩ := capacity_truncation SharedState.init
    [emptyVoice 5, emptyVoice 9, emptyVoice 7, emptyVoice 4] (by decide)
    (by
      intro i j hi hj hij
      simp only [List.length_cons, List.length_nil] at hi hj
      interval_cases i <;> interval_cases j <;> simp_all [emptyVoice])
    (by
      intro k hk hk3
      interval_cases k <;> simp [emptyVoice])
  exact ⟨st', h1, h2 0 (by decide), h2 1 (by decide), h2 2 (by decide), h3 3 (by decide)
    (by decide)⟩

/-- Counterexample to C5 as stated: four entities with the pairwise distinct ids
`65537, 2, 3, 1` (empty meshes). After the primary tick slot 0 holds id `1`, not `65537`,
and the lookup for the fourth entity (id `1`) selects slot 0. -/
theorem truncation_ids_65537_2_3_1 :
    (onAnimatePrimary SharedState.init
        [emptyVoice 65537, emptyVoice 2, emptyVoice 3, emptyVoice 1]).map
      (fun st' => ((st'.meshes 0).id, (st'.meshes 1).id, (st'.meshes 2).id,
        findSlot st' (emptyVoice 1).id maxVoices 0)) = some (1, 2, 3, some 0) := by
  decide

theorem replicaLoop_at_matched (st : SharedState) (vs : List MeshVoice) (k : Nat)
    (hk : k < vs.length) (i : Fin maxVoices)
    (hfind : findSlot st vs[k].id maxVoices 0 = some i) :
    replicaLoop st vs =
      (replicaLoop st (vs.take k)).bind fun a =>
      (meshDeserialize vs[k].mesh (st.meshes i).meshData (st.meshes i).meshVertices
        (st.meshes i).meshIndeces (st.meshes i).meshColors).bind fun m =>
      (replicaLoop st (vs.drop (k + 1))).bind fun b =>
      some (a.1 ++ ⟨vs[k].id, m⟩ :: b.1, a.2 ++ b.2) := by
  have h1 : replicaLoop st vs = replicaLoop st (vs.take k ++ vs.drop k) := by
    rw [List.take_append_drop]
  rw [h1, replicaLoop_append, List.drop_eq_getElem_cons hk]
  simp only [replicaLoop, hfind]
  cases replicaLoop st (List.take k vs) <;> simp only [Option.none_bind, Option.some_bind]
  cases meshDeserialize vs[k].mesh (st.meshes i).meshData (st.meshes i).meshVertices
    (st.meshes i).meshIndeces (st.meshes i).meshColors <;>
    simp only [Option.none_bind, Option.some_bind]
  cases replicaLoop st (List.drop (k + 1) vs) <;> simp only [Option.none_bind, Option.some_bind]

theorem replicaLoop_at_unmatched (st : SharedState) (vs : List MeshVoice) (k : Nat)
    (hk : k < vs.length) (hfind : findSlot st vs[k].id maxVoices 0 = none) :
    replicaLoop st vs =
      (replicaLoop st (vs.take k)).bind fun a =>
      (replicaLoop st (vs.drop (k + 1))).bind fun b =>
      some (a.1 ++ vs[k] :: b.1, a.2 ++ unexpectedIdMsg :: b.2) := by
  have h1 : replicaLoop st vs = replicaLoop st (vs.take k ++ vs.drop k) := by
    rw [List.take_append_drop]
  rw [h1, replicaLoop_append, List.drop_eq_getElem_cons hk]
  simp only [replicaLoop, hfind]
  cases replicaLoop st (List.take k vs) <;> simp only [Option.none_bind, Option.some_bind]
  cases replicaLoop st (List.drop (k + 1) vs) <;> simp only [Option.none_bind, Option.some_bind]

theorem getElem?_append_cons_of_length {α : Type} (xs ys : List α) (y : α) (k : Nat)
    (h : xs.length = k) : (xs ++ y :: ys)[k]? = some y := by
  subst h
  rw [List.getElem?_append_right (Nat.le_refl _)]
  simp

theorem exists_first_slot (st : SharedState) (vid : Int)
    (h : ∃ j : Fin maxVoices, ((st.meshes j).id : Int) = vid) :
    ∃ i : Fin maxVoices, ((st.meshes i).id : Int) = vid ∧
      ∀ j : Fin maxVoices, j < i → ((st.meshes j).id : Int) ≠ vid := by
  by_cases h0 : ((st.meshes 0).id : Int) = vid
  · exact ⟨0, h0, fun j hj => absurd hj (by simp)⟩
  by_cases h1 : ((st.meshes 1).id : Int) = vid
  · refine ⟨1, h1, fun j hj => ?_⟩
    fin_cases j
    · exact h0
    · exact absurd hj (by decide)
    · exact absurd hj (by decide)
  obtain ⟨j, hj⟩ := h
  fin_cases j
  · exact absurd hj h0
  · exact absurd hj h1
  · refine ⟨2, hj, fun j' hj' => ?_⟩
    fin_cases j'
    · exact h0
    · exact h1
    · exact absurd hj' (by decide)

theorem replicaLoop_idem (st : SharedState) (vs : List MeshVoice) :
    ∀ r, replicaLoop st vs = some r → replicaLoop st r.1 = some r := by
  induction vs with
  | nil =>
    intro r h
    simp only [replicaLoop, Option.some.injEq] at h
    subst h
    rfl
  | cons v vs ih =>
    intro r h
    unfold replicaLoop at h
    split at h
    · rename_i i hfind
      simp only [Option.bind_eq_some] at h
      obtain ⟨m, hm, r', hr', h⟩ := h
      simp only [Option.some.injEq] at h
      subst h
      have hm' := meshDeserialize_target_irrelevant m v.mesh (st.meshes i).meshData
        (st.meshes i).meshVertices (st.meshes i).meshIndeces (st.meshes i).meshColors
      simp only [replicaLoop, hfind, hm', hm, Option.some_bind, ih r' hr']
    · rename_i hfind
      simp only [Option.bind_eq_some] at h
      obtain ⟨r', hr', h⟩ := h
      simp only [Option.some.injEq] at h
      subst h
      simp only [replicaLoop, hfind, Option.some_bind, ih r' hr']

/-! ## When decoding returns -/

theorem rd_of_lt (d : MeshData) (p : Nat) (h : p < 64) : ∃ f, rd d p = some f := by
  unfold rd
  have h' : p < maxMeshDataSize := h
  exact ⟨d ⟨p, h'⟩, by simp only [h', dite_true]⟩

theorem deserializeVertices_returns (ts : List Vec3f) : ∀ (d : MeshData) (p : Nat),
    p + 3 * ts.length ≤ 64 →
    ∃ vs, deserializeVertices ts d p = some (vs, p + 3 * ts.length) := by
  induction ts with
  | nil =>
    intro d p _
    exact ⟨[], by simp [deserializeVertices]⟩
  | cons t ts ih =>
    intro d p hp
    simp only [List.length_cons] at hp
    obtain ⟨x, hx⟩ := rd_of_lt d p (by omega)
    obtain ⟨y, hy⟩ := rd_of_lt d (p + 1) (by omega)
    obtain ⟨z, hz⟩ := rd_of_lt d (p + 2) (by omega)
    obtain ⟨vs, hvs⟩ := ih d (p + 3) (by omega)
    refine ⟨⟨x, y, z⟩ :: vs, ?_⟩
    simp only [deserializeVertices, hx, hy, hz, hvs, Option.some_bind, List.length_cons]
    congr 2
    omega

theorem deserializeIndices_returns (ts : List Nat) : ∀ (d : MeshData) (p : Nat),
    p + ts.length ≤ 64 →
    (∀ j, j < ts.length → ∀ f, rd d (p + j) = some f → ∃ n, f32ToU32 f = some n) →
    ∃ is, deserializeIndices ts d p = some (is, p + ts.length) := by
  induction ts with
  | nil =>
    intro d p _ _
    exact ⟨[], by simp [deserializeIndices]⟩
  | cons t ts ih =>
    intro d p hp hconv
    simp only [List.length_cons] at hp hconv
    obtain ⟨f, hf⟩ := rd_of_lt d p (by omega)
    obtain ⟨n, hn⟩ := hconv 0 (by omega) f (by simpa using hf)
    obtain ⟨is, his⟩ := ih d (p + 1) (by omega) (fun j hj g hg =>
      hconv (j + 1) (by omega) g (by
        have e : p + (j + 1) = p + 1 + j := by omega
        rw [e]
        exact hg))
    refine ⟨n :: is, ?_⟩
    simp only [deserializeIndices, hf, hn, his, Option.some_bind, List.length_cons]
    congr 2
    omega

theorem deserializeColors_returns (ts : List Color) : ∀ (d : MeshData) (p : Nat),
    p + 4 * ts.length ≤ 64 →
    ∃ cs, deserializeColors ts d p = some (cs, p + 4 * ts.length) := by
  induction ts with
  | nil =>
    intro d p _
    exact ⟨[], by simp [deserializeColors]⟩
  | cons t ts ih =>
    intro d p hp
    simp only [List.length_cons] at hp
    obtain ⟨r, hr⟩ := rd_of_lt d p (by omega)
    obtain ⟨g, hg⟩ := rd_of_lt d (p + 1) (by omega)
    obtain ⟨b, hb⟩ := rd_of_lt d (p + 2) (by omega)
    obtain ⟨a, ha⟩ := rd_of_lt d (p + 3) (by omega)
    obtain ⟨cs, hcs⟩ := ih d (p + 4) (by omega)
    refine ⟨⟨r, g, b, a⟩ :: cs, ?_⟩
    simp only [deserializeColors, hr, hg, hb, ha, hcs, Option.some_bind, List.length_cons]
    congr 2
    omega

/-- The function `meshDeserialize` returns on every decodable slot, whatever the target. -/
theorem meshDeserialize_returns (s : SerializedMesh) (hs : SlotDecodable s) (target : Mesh) :
    ∃ m, meshDeserialize target s.meshData s.meshVertices s.meshIndeces s.meshColors =
      some m := by
  obtain ⟨hfit, hconv⟩ := hs
  have hfit' : 3 * s.meshVertices + s.meshIndeces + 4 * s.meshColors ≤ 64 := hfit
  obtain ⟨vs, hvs⟩ := deserializeVertices_returns
    (resize target.vertices s.meshVertices Vec3f.zero) s.meshData 0
    (by rw [length_resize]; omega)
  obtain ⟨is, his⟩ := deserializeIndices_returns
    (resize target.indices s.meshIndeces 0) s.meshData (0 + 3 * s.meshVertices)
    (by rw [length_resize]; omega)
    (fun j hj f hf => hconv j (by rwa [length_resize] at hj) f
      (by simpa only [Nat.zero_add] using hf))
  obtain ⟨cs, hcs⟩ := deserializeColors_returns
    (resize target.colors s.meshColors Color.white) s.meshData
    (0 + 3 * s.meshVertices + s.meshIndeces)
    (by rw [length_resize]; omega)
  rw [length_resize] at hvs his hcs
  exact ⟨⟨vs, is, cs⟩, by simp only [meshDeserialize, hvs, his, hcs, Option.some_bind]⟩

/-- The replica loop returns on every table whose slots are all decodable. -/
theorem replicaLoop_returns (st : SharedState) (hst : ∀ i, SlotDecodable (st.meshes i))
    (vs : List MeshVoice) : ∃ r, replicaLoop st vs = some r := by
  induction vs with
  | nil => exact ⟨([], []), rfl⟩
  | cons v vs ih =>
    obtain ⟨r, hr⟩ := ih
    unfold replicaLoop
    split
    · rename_i i _
      obtain ⟨m, hm⟩ := meshDeserialize_returns (st.meshes i) (hst i) v.mesh
      exact ⟨(⟨v.id, m⟩ :: r.1, r.2), by simp only [hm, hr, Option.some_bind]⟩
    · exact ⟨(v :: r.1, unexpectedIdMsg :: r.2), by simp only [hr, Option.some_bind]⟩

theorem sampleState_decodable : ∀ i, SlotDecodable (sampleState.meshes i) := by
  intro i
  fin_cases i <;> refine ⟨by decide, fun j hj => ?_⟩ <;> simp [sampleState] at hj

/-! ## Replica tick -/

/-- C6. Replica match: for every table and every local active entity (position `k`)
whose id equals the id of at least one slot, there is a first (lowest-position) slot `i`
with that id, and the replica branch of `onAnimate` is: the replica branch on the
entities before `k`, then `meshDeserialize` of slot `i`'s payload and counts into that
entity's mesh, then the replica branch on the entities after `k`. Whenever it returns,
the entity at position `k` keeps its id and has the mesh returned by that
`meshDeserialize`; no other slot is used for it. It returns on every table whose slots
are decodable. -/
theorem replica_match (st : SharedState) (vs : List MeshVoice) (k : Nat) (hk : k < vs.length)
    (hex : ∃ j : Fin maxVoices, ((st.meshes j).id : Int) = vs[k].id) :
    ∃ i : Fin maxVoices, ((st.meshes i).id : Int) = vs[k].id ∧
      (∀ j : Fin maxVoices, j < i → ((st.meshes j).id : Int) ≠ vs[k].id) ∧
      onAnimateReplica st vs =
        ((onAnimateReplica st (vs.take k)).bind fun a =>
         (meshDeserialize vs[k].mesh (st.meshes i).meshData (st.meshes i).meshVertices
            (st.meshes i).meshIndeces (st.meshes i).meshColors).bind fun m =>
         (onAnimateReplica st (vs.drop (k + 1))).bind fun b =>
         some (a.1 ++ ⟨vs[k].id, m⟩ :: b.1, a.2 ++ b.2)) ∧
      (∀ r, onAnimateReplica st vs = some r →
        ∃ m, meshDeserialize vs[k].mesh (st.meshes i).meshData (st.meshes i).meshVertices
            (st.meshes i).meshIndeces (st.meshes i).meshColors = some m ∧
          r.1[k]? = some ⟨vs[k].id, m⟩) ∧
      ((∀ j, SlotDecodable (st.meshes j)) → ∃ r, onAnimateReplica st vs = some r) := by
  obtain ⟨i, hid, hfirst⟩ := exists_first_slot st vs[k].id hex
  have hfind := findSlot_first st vs[k].id i hid hfirst
  have heq := replicaLoop_at_matched st vs k hk i hfind
  refine ⟨i, hid, hfirst, heq, ?_, fun hst => replicaLoop_returns st hst vs⟩
  intro r hr
  have hr' : replicaLoop st vs = some r := hr
  rw [heq] at hr'
  simp only [Option.bind_eq_some] at hr'
  obtain ⟨a, ha, m, hm, b, _, hr'⟩ := hr'
  simp only [Option.some.injEq] at hr'
  subst hr'
  refine ⟨m, hm, ?_⟩
  have hlen := replicaLoop_length st (vs.take k) a ha
  rw [List.length_take_of_le (Nat.le_of_lt hk)] at hlen
  exact getElem?_append_cons_of_length _ _ _ k hlen

/-- Witness of C6 on `sampleState` (slots 0 and 1 both carry id 5) with the local
entities of ids 7 and 5: the entity of id 5, at position 1, is decoded from slot 0. -/
theorem replica_match_witness :
    ∃ i : Fin maxVoices, ((sampleState.meshes i).id : Int) = 5 ∧
      (∀ j : Fin maxVoices, j < i → ((sampleState.meshes j).id : Int) ≠ 5) ∧
      onAnimateReplica sampleState [⟨7, sampleMesh⟩, ⟨5, Mesh.empty⟩] =
        ((onAnimateReplica sampleState [⟨7, sampleMesh⟩]).bind fun a =>
         (meshDeserialize Mesh.empty (sampleState.meshes i).meshData
            (sampleState.meshes i).meshVertices (sampleState.meshes i).meshIndeces
            (sampleState.meshes i).meshColors).bind fun m =>
         (onAnimateReplica sampleState []).bind fun b =>
         some (a.1 ++ ⟨5, m⟩ :: b.1, a.2 ++ b.2)) ∧
      (∀ r, onAnimateReplica sampleState [⟨7, sampleMesh⟩, ⟨5, Mesh.empty⟩] = some r →
        ∃ m, meshDeserialize Mesh.empty (sampleState.meshes i).meshData
            (sampleState.meshes i).meshVertices (sampleState.meshes i).meshIndeces
            (sampleState.meshes i).meshColors = some m ∧
          r.1[1]? = some ⟨5, m⟩) ∧
      ∃ r, onAnimateReplica sampleState [⟨7, sampleMesh⟩, ⟨5, Mesh.empty⟩] = some r := by
  obtain ⟨i, h1, h2, h3, h4, h5⟩ :=
    replica_match sampleState [⟨7, sampleMesh⟩, ⟨5, Mesh.empty⟩] 1 (by decide)
      ⟨⟨1, by decide⟩, by decide⟩
  exact ⟨i, h1, h2, h3, h4, h5 sampleState_decodable⟩

/-- C7. Unexpected id: for every table and every local active entity (position `k`)
whose id equals the id of no slot, the replica branch of `onAnimate` is: the replica
branch on the entities before `k`, then the entity left exactly as it was and one
unexpected-id line written to `std::cerr`, then the replica branch on the entities after
`k` (which are still processed). Whenever it returns, the entity at position `k` is
unchanged and the unexpected-id line is among the lines written. It returns on every
table whose slots are decodable. -/
theorem replica_unexpected_id (st : SharedState) (vs : List MeshVoice) (k : Nat)
    (hk : k < vs.length)
    (hno : ∀ j : Fin maxVoices, ((st.meshes j).id : Int) ≠ vs[k].id) :
    onAnimateReplica st vs =
        ((onAnimateReplica st (vs.take k)).bind fun a =>
         (onAnimateReplica st (vs.drop (k + 1))).bind fun b =>
         some (a.1 ++ vs[k] :: b.1, a.2 ++ unexpectedIdMsg :: b.2)) ∧
      (∀ r, onAnimateReplica st vs = some r →
        r.1[k]? = some vs[k] ∧ unexpectedIdMsg ∈ r.2) ∧
      ((∀ j, SlotDecodable (st.meshes j)) → ∃ r, onAnimateReplica st vs = some r) := by
  have hfind := findSlot_none st vs[k].id hno
  have heq := replicaLoop_at_unmatched st vs k hk hfind
  refine ⟨heq, ?_, fun hst => replicaLoop_returns st hst vs⟩
  intro r hr
  have hr' : replicaLoop st vs = some r := hr
  rw [heq] at hr'
  simp only [Option.bind_eq_some] at hr'
  obtain ⟨a, ha, b, _, hr'⟩ := hr'
  simp only [Option.some.injEq] at hr'
  subst hr'
  have hlen := replicaLoop_length st (vs.take k) a ha
  rw [List.length_take_of_le (Nat.le_of_lt hk)] at hlen
  exact ⟨getElem?_append_cons_of_length _ _ _ k hlen, by simp⟩

/-- Witness of C7 on `sampleState` with the local entities of ids 5, 7, 5: the entity of
id 7, at position 1, matches no slot. -/
theorem replica_unexpected_id_witness :
    onAnimateReplica sampleState [⟨5, Mesh.empty⟩, ⟨7, sampleMesh⟩, ⟨5, sampleMesh⟩] =
        ((onAnimateReplica sampleState [⟨5, Mesh.empty⟩]).bind fun a =>
         (onAnimateReplica sampleState [⟨5, sampleMesh⟩]).bind fun b =>
         some (a.1 ++ ⟨7, sampleMesh⟩ :: b.1, a.2 ++ unexpectedIdMsg :: b.2)) ∧
      (∀ r, onAnimateReplica sampleState
          [⟨5, Mesh.empty⟩, ⟨7, sampleMesh⟩, ⟨5, sampleMesh⟩] = some r →
        r.1[1]? = some ⟨7, sampleMesh⟩ ∧ unexpectedIdMsg ∈ r.2) ∧
      ∃ r, onAnimateReplica sampleState
          [⟨5, Mesh.empty⟩, ⟨7, sampleMesh⟩, ⟨5, sampleMesh⟩] = some r := by
  obtain ⟨h1, h2, h3⟩ :=
    replica_unexpected_id sampleState [⟨5, Mesh.empty⟩, ⟨7, sampleMesh⟩, ⟨5, sampleMesh⟩] 1
      (by decide) (by decide)
  exact ⟨h1, h2, h3 sampleState_decodable⟩

/-! ## The scenario of the specification -/

theorem scenario_primary_spec (st : SharedState) (v0 v1 v2 v3 : Vec3f) (c0 c1 c2 c3 : Color) :
    ∃ st' d0 d1, onAnimatePrimary st [scenarioA v0 v1 v2 v3 c0 c1 c2 c3, scenarioB] = some st' ∧
      st'.meshes 0 = ⟨5, d0, 4, 0, 4⟩ ∧ st'.meshes 1 = ⟨9, d1, 0, 0, 0⟩ ∧
      st'.meshes 2 = st.meshes 2 ∧
      ∀ target, meshDeserialize target d0 4 0 4 = some (scenarioA v0 v1 v2 v3 c0 c1 c2 c3).mesh := by
  obtain ⟨st', h1, hframe, hval⟩ :=
    onAnimatePrimary_spec st [scenarioA v0 v1 v2 v3 c0 c1 c2 c3, scenarioB]
  obtain ⟨r0, hr0, hs0⟩ := hval 0 (by simp)
  obtain ⟨r1, hr1, hs1⟩ := hval 1 (by simp)
  obtain ⟨d0, hd0, _, hv, hi, hc⟩ := meshSerialize_fit
    (scenarioA v0 v1 v2 v3 c0 c1 c2 c3).mesh (st.meshes 0).meshData (by simp [scenarioA])
  obtain ⟨d1, hd1, _⟩ := meshSerialize_fit scenarioB.mesh (st.meshes 1).meshData (by decide)
  have e0 : meshSerialize (scenarioA v0 v1 v2 v3 c0 c1 c2 c3).mesh (st.meshes 0).meshData =
      some r0 := hr0
  have e1 : meshSerialize scenarioB.mesh (st.meshes 1).meshData = some r1 := hr1
  rw [hd0] at e0
  rw [hd1] at e1
  cases e0
  cases e1
  refine ⟨st', d0, d1, h1, ?_, ?_, hframe 2 (by simp), ?_⟩
  · rw [hs0]
    rfl
  · rw [hs1]
    rfl
  · intro target
    exact meshDeserialize_of_layout (scenarioA v0 v1 v2 v3 c0 c1 c2 c3).mesh target d0 hv
      (fun j hj => by simp [scenarioA] at hj) hc

/-- C8. Scenario, primary half: with active entities A (id 5, four vertices, no index,
four colours) then B (id 9, empty mesh), for every prior table the primary tick returns
and gives slot 0 = (id 5, 4 vertices, 0 indices, 4 colours), slot 1 = (id 9, counts
0, 0, 0), and slot 2 equal to what it was before the tick. -/
theorem scenario_primary (st : SharedState) (v0 v1 v2 v3 : Vec3f) (c0 c1 c2 c3 : Color) :
    ∃ st', onAnimatePrimary st [scenarioA v0 v1 v2 v3 c0 c1 c2 c3, scenarioB] = some st' ∧
      (st'.meshes 0).id = 5 ∧ (st'.meshes 0).meshVertices = 4 ∧
      (st'.meshes 0).meshIndeces = 0 ∧ (st'.meshes 0).meshColors = 4 ∧
      (st'.meshes 1).id = 9 ∧ (st'.meshes 1).meshVertices = 0 ∧
      (st'.meshes 1).meshIndeces = 0 ∧ (st'.meshes 1).meshColors = 0 ∧
      st'.meshes 2 = st.meshes 2 := by
  obtain ⟨st', d0, d1, h, h0, h1, h2, _⟩ := scenario_primary_spec st v0 v1 v2 v3 c0 c1 c2 c3
  refine ⟨st', h, ?_, ?_, ?_, ?_, ?_, ?_, ?_, ?_, h2⟩ <;> simp only [h0, h1]

/-- C9 (as amended). Scenario, replica half: on the table produced by the scenario's
primary tick from any prior table, a replica tick with local entities of ids 5 and 9
(whatever their meshes) returns, leaves entity 5 with A's four vertices and four colours
and entity 9 with empty lists, and reports nothing; and, provided the slot 2 left over
from before the tick does not carry id 7, a replica tick with the single local entity of
id 7 reports the unexpected-id condition and leaves its mesh untouched. -/
theorem scenario_replica (st : SharedState) (v0 v1 v2 v3 : Vec3f) (c0 c1 c2 c3 : Color)
    (m5 m9 m7 : Mesh) :
    ∃ st', onAnimatePrimary st [scenarioA v0 v1 v2 v3 c0 c1 c2 c3, scenarioB] = some st' ∧
      onAnimateReplica st' [⟨5, m5⟩, ⟨9, m9⟩] =
        some ([⟨5, ⟨[v0, v1, v2, v3], [], [c0, c1, c2, c3]⟩⟩, ⟨9, ⟨[], [], []⟩⟩], []) ∧
      (((st.meshes 2).id : Int) ≠ 7 →
        onAnimateReplica st' [⟨7, m7⟩] = some ([⟨7, m7⟩], [unexpectedIdMsg])) := by
  obtain ⟨st', d0, d1, h, h0, h1, h2, hdec⟩ := scenario_primary_spec st v0 v1 v2 v3 c0 c1 c2 c3
  refine ⟨st', h, ?_, ?_⟩
  · have f5 : findSlot st' 5 maxVoices 0 = some 0 :=
      findSlot_first st' 5 0 (by rw [h0]; rfl) (fun j hj => absurd hj (by simp))
    have f9 : findSlot st' 9 maxVoices 0 = some 1 := by
      refine findSlot_first st' 9 1 (by rw [h1]; rfl) (fun j hj => ?_)
      fin_cases j
      · show ((st'.meshes 0).id : Int) ≠ 9
        rw [h0]
        simp
      · exact absurd hj (by decide)
      · exact absurd hj (by decide)
    have g5 := hdec m5
    have g9 := meshDeserialize_zero m9 d1
    simp only [onAnimateReplica, replicaLoop, f5, f9, h0, h1, g5, g9, Option.some_bind,
      scenarioA]
  · intro h7
    have f7 : findSlot st' 7 maxVoices 0 = none := by
      apply findSlot_none
      intro j
      fin_cases j
      · show ((st'.meshes 0).id : Int) ≠ 7
        rw [h0]
        simp
      · show ((st'.meshes 1).id : Int) ≠ 7
        rw [h1]
        simp
      · show ((st'.meshes 2).id : Int) ≠ 7
        rw [h2]
        exact h7
    simp only [onAnimateReplica, replicaLoop, f7, Option.some_bind]

/-- Witness of C9 (as amended) on the initial table, whose slot 2 carries id 0. -/
theorem scenario_replica_witness :
    ∃ st', onAnimatePrimary SharedState.init
        [scenarioA Vec3f.zero Vec3f.zero Vec3f.zero Vec3f.zero
          Color.white Color.white Color.white Color.white, scenarioB] = some st' ∧
      onAnimateReplica st' [⟨5, Mesh.empty⟩, ⟨9, sampleMesh⟩] =
        some ([⟨5, ⟨[Vec3f.zero, Vec3f.zero, Vec3f.zero, Vec3f.zero], [],
          [Color.white, Color.white, Color.white, Color.white]⟩⟩, ⟨9, ⟨[], [], []⟩⟩], []) ∧
      onAnimateReplica st' [⟨7, sampleMesh⟩] = some ([⟨7, sampleMesh⟩], [unexpectedIdMsg]) := by
  obtain ⟨st', h, h59, h7⟩ := scenario_replica SharedState.init Vec3f.zero Vec3f.zero
    Vec3f.zero Vec3f.zero Color.white Color.white Color.white Color.white
    Mesh.empty sampleMesh sampleMesh
  exact ⟨st', h, h59, h7 (by decide)⟩

/-- Counterexample to C9 as stated: when the slot 2 left over from before the primary
tick carries id 7 (with an empty geometry), the replica tick with the single local
entity of id 7 reports nothing and replaces the entity's mesh by the stale slot's empty
geometry. -/
theorem scenario_replica_stale_id_7 :
    ((onAnimatePrimary staleState
        [scenarioA Vec3f.zero Vec3f.zero Vec3f.zero Vec3f.zero
          Color.white Color.white Color.white Color.white, scenarioB]).bind fun st' =>
      onAnimateReplica st' [⟨7, sampleMesh⟩]) = some ([⟨7, Mesh.empty⟩], []) ∧
    sampleMesh ≠ Mesh.empty := by
  refine ⟨by decide, by decide⟩

/-- C10. Idempotence of replica decode: for every table and every list of local
entities, running the replica branch of `onAnimate` a second time, on the same table and
on the entities as the first run left them, returns whenever the first run does and
leaves every entity (id, vertex, index and colour lists) exactly as the first run left
it, writing the same lines again. The runs return on every table whose slots are
decodable. -/
theorem replica_idempotent (st : SharedState) (vs : List MeshVoice) :
    ((onAnimateReplica st vs).bind fun r => onAnimateReplica st r.1) = onAnimateReplica st vs ∧
      (∀ r, onAnimateReplica st vs = some r → onAnimateReplica st r.1 = some r) ∧
      ((∀ j, SlotDecodable (st.meshes j)) →
        ∃ r, onAnimateReplica st vs = some r ∧ onAnimateReplica st r.1 = some r) := by
  have h := replicaLoop_idem st vs
  refine ⟨?_, h, fun hst => ?_⟩
  rotate_left
  · obtain ⟨r, hr⟩ := replicaLoop_returns st hst vs
    exact ⟨r, hr, h r hr⟩
  unfold onAnimateReplica
  cases hr : replicaLoop st vs with
  | none => rfl
  | some r => simpa only [Option.some_bind] using h r hr

/-- Witness of C10 on `sampleState` with local entities of ids 5 and 7: the first run
decodes entity 5 from slot 0 and reports entity 7; a second run leaves the same. -/
theorem replica_idempotent_witness :
    onAnimateReplica sampleState [⟨5, Mesh.empty⟩, ⟨7, sampleMesh⟩] =
        some ([⟨5, ⟨[⟨⟨1065353216⟩, ⟨0⟩, ⟨0⟩⟩], [], []⟩⟩, ⟨7, sampleMesh⟩], [unexpectedIdMsg]) ∧
      onAnimateReplica sampleState [⟨5, ⟨[⟨⟨1065353216⟩, ⟨0⟩, ⟨0⟩⟩], [], []⟩⟩, ⟨7, sampleMesh⟩] =
        some ([⟨5, ⟨[⟨⟨1065353216⟩, ⟨0⟩, ⟨0⟩⟩], [], []⟩⟩, ⟨7, sampleMesh⟩], [unexpectedIdMsg]) := by
  have h1 : onAnimateReplica sampleState [⟨5, Mesh.empty⟩, ⟨7, sampleMesh⟩] =
      some ([⟨5, ⟨[⟨⟨1065353216⟩, ⟨0⟩, ⟨0⟩⟩], [], []⟩⟩, ⟨7, sampleMesh⟩], [unexpectedIdMsg]) := by
    decide
  exact ⟨h1, (replica_idempotent sampleState [⟨5, Mesh.empty⟩, ⟨7, sampleMesh⟩]).2.1 _ h1⟩

/-! ## Further lemmas on the ticks -/

theorem meshSerialize_counts_fit (g : Mesh) (d : MeshData) (r : MeshData × Nat × Nat × Nat)
    (h : meshSerialize g d = some r) : 3 * r.2.1 + r.2.2.1 + 4 * r.2.2.2 ≤ 64 := by
  by_cases hfit : 3 * g.vertices.length + g.indices.length + 4 * g.colors.length ≤ 64
  · obtain ⟨d', hd', _⟩ := meshSerialize_fit g d hfit
    rw [hd'] at h
    cases h
    exact hfit
  · rw [meshSerialize_over g d (by omega)] at h
    cases h
    simp

theorem findSlot_some (st : SharedState) (vid : Int) (i : Fin maxVoices)
    (h : findSlot st vid maxVoices 0 = some i) :
    ((st.meshes i).id : Int) = vid ∧
      ∀ j : Fin maxVoices, j < i → ((st.meshes j).id : Int) ≠ vid := by
  by_cases hex : ∃ j : Fin maxVoices, ((st.meshes j).id : Int) = vid
  · obtain ⟨i', hid, hfirst⟩ := exists_first_slot st vid hex
    have h' := findSlot_first st vid i' hid hfirst
    rw [h] at h'
    cases h'
    exact ⟨hid, hfirst⟩
  · have hno : ∀ j : Fin maxVoices, ((st.meshes j).id : Int) ≠ vid :=
      fun j hj => hex ⟨j, hj⟩
    rw [findSlot_none st vid hno] at h
    cases h

theorem onAnimatePrimary_fits (st st' : SharedState) (vs : List MeshVoice)
    (hst : ∀ i, SlotFits (st.meshes i)) (h : onAnimatePrimary st vs = some st') :
    ∀ i, SlotFits (st'.meshes i) := by
  obtain ⟨st'', h1, hframe, hval⟩ := onAnimatePrimary_spec st vs
  rw [h] at h1
  cases h1
  intro i
  by_cases hi : i.val < vs.length
  · obtain ⟨r, hr, hs⟩ := hval i hi
    rw [hs]
    exact meshSerialize_counts_fit _ _ r hr
  · rw [hframe i (by omega)]
    exact hst i

theorem primaryTicks_fits (ticks : List (List MeshVoice)) : ∀ (st : SharedState),
    (∀ i, SlotFits (st.meshes i)) →
    ∃ st', primaryTicks st ticks = some st' ∧ ∀ i, SlotFits (st'.meshes i) := by
  induction ticks with
  | nil =>
    intro st hst
    exact ⟨st, rfl, hst⟩
  | cons vs ticks ih =>
    intro st hst
    obtain ⟨st1, h1, _⟩ := onAnimatePrimary_spec st vs
    obtain ⟨st', h2, hfit⟩ := ih st1 (onAnimatePrimary_fits st st1 vs hst h1)
    exact ⟨st', by simp only [primaryTicks, h1, Option.some_bind, h2], hfit⟩

theorem init_fits : ∀ i, SlotFits (SharedState.init.meshes i) := by
  intro i
  show 3 * 0 + 0 + 4 * 0 ≤ 64
  decide

/-! ## Frame and invalidation -/

/-- C11. Replicas never write the table: for every table and every list of local
entities, whenever the replica branch of `onAnimate` returns, the shared state it
leaves is the one it was given, so every slot's id, counts and payload are unchanged;
and it returns on every table whose slots are decodable. -/
theorem replica_keeps_table (st : SharedState) (vs : List MeshVoice) :
    (∀ r, onAnimate false st vs = some r →
      r.1 = st ∧ ∀ i, (r.1.meshes i).id = (st.meshes i).id ∧
        (r.1.meshes i).meshData = (st.meshes i).meshData ∧
        (r.1.meshes i).meshVertices = (st.meshes i).meshVertices ∧
        (r.1.meshes i).meshIndeces = (st.meshes i).meshIndeces ∧
        (r.1.meshes i).meshColors = (st.meshes i).meshColors) ∧
      ((∀ j, SlotDecodable (st.meshes j)) → ∃ r, onAnimate false st vs = some r ∧ r.1 = st) := by
  refine ⟨?_, ?_⟩
  · intro r hr
    simp only [onAnimate, Bool.false_eq_true, if_false, Option.map_eq_some'] at hr
    obtain ⟨a, _, ha⟩ := hr
    subst ha
    exact ⟨rfl, fun i => ⟨rfl, rfl, rfl, rfl, rfl⟩⟩
  · intro hst
    obtain ⟨r, hr⟩ := replicaLoop_returns st hst vs
    refine ⟨(st, r.1, r.2), ?_, rfl⟩
    simp only [onAnimate, Bool.false_eq_true, if_false, onAnimateReplica, hr, Option.map_some']

/-- Witness of C11 on `sampleState` with local entities of ids 5 and 7. -/
theorem replica_keeps_table_witness :
    ∃ r, onAnimate false sampleState [⟨5, Mesh.empty⟩, ⟨7, sampleMesh⟩] = some r ∧
      r.1 = sampleState :=
  (replica_keeps_table sampleState [⟨5, Mesh.empty⟩, ⟨7, sampleMesh⟩]).2 sampleState_decodable

/-- C12 (as amended). One primary tick rewrites only the slots at positions below
`min n 3`: for every prior table and every sequence of `n` active entities it returns,
slot `i` for `i < min n 3` is written from the `i`-th entity (its id converted to
`uint16_t`, and what `meshSerialize` produces for its mesh), and every slot at a position
`>= n` is exactly as it was before the tick: it is not invalidated and still carries the
id and geometry an earlier tick left there. -/
theorem primary_tick_rewrites_prefix (st : SharedState) (vs : List MeshVoice) :
    ∃ st', onAnimatePrimary st vs = some st' ∧
      (∀ (i : Fin maxVoices) (hi : i.val < vs.length),
        ∃ r, meshSerialize vs[i.val].mesh (st.meshes i).meshData = some r ∧
          st'.meshes i = ⟨toU16 vs[i.val].id, r.1, r.2.1, r.2.2.1, r.2.2.2⟩) ∧
      (∀ i : Fin maxVoices, vs.length ≤ i.val → st'.meshes i = st.meshes i) := by
  obtain ⟨st', h1, hframe, hval⟩ := onAnimatePrimary_spec st vs
  exact ⟨st', h1, hval, hframe⟩

/-- Witness of C12 (as amended): after the tick with `earlierVoices`, the tick with the
single voice of `laterVoices` leaves slots 1 and 2 as they were. -/
theorem primary_tick_rewrites_prefix_witness :
    ∃ st1 st2, onAnimatePrimary SharedState.init earlierVoices = some st1 ∧
      onAnimatePrimary st1 laterVoices = some st2 ∧
      st2.meshes 1 = st1.meshes 1 ∧ st2.meshes 2 = st1.meshes 2 := by
  obtain ⟨st1, h1, _, _⟩ := primary_tick_rewrites_prefix SharedState.init earlierVoices
  obtain ⟨st2, h2, _, hframe⟩ := primary_tick_rewrites_prefix st1 laterVoices
  exact ⟨st1, st2, h1, h2, hframe 1 (by decide), hframe 2 (by decide)⟩

/-- Counterexample to C12 as stated: from the initial table, a tick with the three
voices of `earlierVoices` and then a tick with the single voice of `laterVoices`
(`n = 1`) leave slot 2 carrying id 7 with the counts `(1, 2, 1)` of the earlier tick. -/
theorem stale_slot_after_later_tick :
    ((onAnimatePrimary SharedState.init earlierVoices).bind fun st1 =>
      (onAnimatePrimary st1 laterVoices).map fun st2 =>
        ((st2.meshes 2).id, (st2.meshes 2).meshVertices, (st2.meshes 2).meshIndeces,
          (st2.meshes 2).meshColors)) = some (7, 1, 2, 1) := by
  decide

/-- C13 (as amended). Skipped versus empty: for every geometry beyond the capacity and
every prior payload, `meshSerialize` leaves the counts `(0, 0, 0)` and the payload as it
was, which is exactly what it leaves for the empty geometry, so a reader cannot tell the
two apart; the record differs (in its counts) from the one of every non-empty geometry
within the capacity. -/
theorem skipped_same_as_empty (g : Mesh) (d : MeshData)
    (hbig : 64 < 3 * g.vertices.length + g.indices.length + 4 * g.colors.length) :
    meshSerialize g d = some (d, 0, 0, 0) ∧
      meshSerialize Mesh.empty d = some (d, 0, 0, 0) ∧
      ∀ g' : Mesh, 3 * g'.vertices.length + g'.indices.length + 4 * g'.colors.length ≤ 64 →
        0 < g'.vertices.length + g'.indices.length + g'.colors.length →
        ∃ d', meshSerialize g' d =
            some (d', g'.vertices.length, g'.indices.length, g'.colors.length) ∧
          (g'.vertices.length, g'.indices.length, g'.colors.length) ≠ (0, 0, 0) := by
  refine ⟨meshSerialize_over g d hbig, ?_, ?_⟩
  · simp [meshSerialize, Mesh.empty, serializeVertices, serializeIndices, serializeColors]
  · intro g' hfit hne
    obtain ⟨d', hd', _⟩ := meshSerialize_fit g' d hfit
    refine ⟨d', hd', ?_⟩
    intro h
    simp only [Prod.mk.injEq] at h
    omega

/-- Witness of C13 (as amended) on the 22-vertex mesh `oversizeMesh`. -/
theorem skipped_same_as_empty_witness :
    meshSerialize oversizeMesh MeshData.zero = some (MeshData.zero, 0, 0, 0) ∧
      meshSerialize Mesh.empty MeshData.zero = some (MeshData.zero, 0, 0, 0) :=
  ⟨(skipped_same_as_empty oversizeMesh MeshData.zero (by decide)).1,
    (skipped_same_as_empty oversizeMesh MeshData.zero (by decide)).2.1⟩

/-- Counterexample to C13 as stated: on the same prior payload, the record
`meshSerialize` leaves for the 22-vertex mesh `oversizeMesh` (encoding skipped) equals
the record it leaves for the empty mesh. -/
theorem skipped_equals_empty_record :
    64 < 3 * oversizeMesh.vertices.length + oversizeMesh.indices.length
        + 4 * oversizeMesh.colors.length ∧
      meshSerialize oversizeMesh MeshData.zero = meshSerialize Mesh.empty MeshData.zero := by
  refine ⟨by decide, ?_⟩
  rw [meshSerialize_over oversizeMesh MeshData.zero (by decide)]
  simp [meshSerialize, Mesh.empty, serializeVertices, serializeIndices, serializeColors]

/-! ## Ids -/

/-- C14 (as amended). Sentinel id 0: for every table and every local active entity (at
position `k`), the replica's id lookup selects slot `i` exactly when `i` is the first
(lowest-position) slot whose id is the entity's id, and selects no slot exactly when no
slot carries that id; the replica tick decodes the selected slot, and no other, into the
entity's mesh, and reports the entity when no slot is selected. So for an entity whose
id is not 0 a slot whose id is 0 is never selected nor decoded into its mesh, while an
entity whose id is 0 is matched to the first slot whose id is 0, when there is one, and
that slot is decoded into its mesh. -/
theorem lookup_never_selects_id_zero (st : SharedState) (vs : List MeshVoice) (k : Nat)
    (hk : k < vs.length) :
    (∀ i : Fin maxVoices, findSlot st vs[k].id maxVoices 0 = some i ↔
      (((st.meshes i).id : Int) = vs[k].id ∧
        ∀ j : Fin maxVoices, j < i → ((st.meshes j).id : Int) ≠ vs[k].id)) ∧
    (findSlot st vs[k].id maxVoices 0 = none ↔
      ∀ j : Fin maxVoices, ((st.meshes j).id : Int) ≠ vs[k].id) ∧
    (∀ i : Fin maxVoices, findSlot st vs[k].id maxVoices 0 = some i →
      onAnimateReplica st vs =
        ((onAnimateReplica st (vs.take k)).bind fun a =>
         (meshDeserialize vs[k].mesh (st.meshes i).meshData (st.meshes i).meshVertices
            (st.meshes i).meshIndeces (st.meshes i).meshColors).bind fun m =>
         (onAnimateReplica st (vs.drop (k + 1))).bind fun b =>
         some (a.1 ++ ⟨vs[k].id, m⟩ :: b.1, a.2 ++ b.2))) ∧
    (findSlot st vs[k].id maxVoices 0 = none →
      onAnimateReplica st vs =
        ((onAnimateReplica st (vs.take k)).bind fun a =>
         (onAnimateReplica st (vs.drop (k + 1))).bind fun b =>
         some (a.1 ++ vs[k] :: b.1, a.2 ++ unexpectedIdMsg :: b.2))) ∧
    (vs[k].id ≠ 0 → ∀ i : Fin maxVoices, findSlot st vs[k].id maxVoices 0 = some i →
      (st.meshes i).id ≠ 0) ∧
    (vs[k].id = 0 → ∀ i : Fin maxVoices, (st.meshes i).id = 0 →
      (∀ j : Fin maxVoices, j < i → (st.meshes j).id ≠ 0) →
      findSlot st vs[k].id maxVoices 0 = some i ∧
      onAnimateReplica st vs =
        ((onAnimateReplica st (vs.take k)).bind fun a =>
         (meshDeserialize vs[k].mesh (st.meshes i).meshData (st.meshes i).meshVertices
            (st.meshes i).meshIndeces (st.meshes i).meshColors).bind fun m =>
         (onAnimateReplica st (vs.drop (k + 1))).bind fun b =>
         some (a.1 ++ ⟨vs[k].id, m⟩ :: b.1, a.2 ++ b.2))) := by
  refine ⟨?_, ?_, ?_, ?_, ?_, ?_⟩
  · intro i
    exact ⟨fun h => findSlot_some st vs[k].id i h,
      fun h => findSlot_first st vs[k].id i h.1 h.2⟩
  · constructor
    · intro hnone j hj
      obtain ⟨i, hid, hfirst⟩ := exists_first_slot st vs[k].id ⟨j, hj⟩
      rw [findSlot_first st vs[k].id i hid hfirst] at hnone
      cases hnone
    · exact findSlot_none st vs[k].id
  · intro i hsel
    exact replicaLoop_at_matched st vs k hk i hsel
  · intro hnone
    exact replicaLoop_at_unmatched st vs k hk hnone
  · intro hv i hsel h0
    obtain ⟨hid, _⟩ := findSlot_some st vs[k].id i hsel
    rw [h0] at hid
    exact hv hid.symm
  · intro hv i h0 hfirst
    have hsel : findSlot st vs[k].id maxVoices 0 = some i := by
      refine findSlot_first st vs[k].id i ?_ (fun j hj hcontra => hfirst j hj ?_)
      · rw [h0, hv]
        rfl
      · rw [hv] at hcontra
        exact_mod_cast hcontra
    exact ⟨hsel, replicaLoop_at_matched st vs k hk i hsel⟩

/-- Witness of C14 (as amended): on `sampleState`, whose slots carry the ids 5, 5, 0, with
the local entities of ids 7 and 0: the entity of id 0, at position 1, is matched to slot
2, the first slot whose id is 0, and that slot (an empty geometry) is decoded into its
mesh; the entity of id 7 is reported. -/
theorem lookup_never_selects_id_zero_witness :
    findSlot sampleState 0 maxVoices 0 = some 2 ∧
      onAnimateReplica sampleState [⟨7, sampleMesh⟩, ⟨0, sampleMesh⟩] =
        some ([⟨7, sampleMesh⟩, ⟨0, Mesh.empty⟩], [unexpectedIdMsg]) := by
  obtain ⟨hsel, heq⟩ :=
    (lookup_never_selects_id_zero sampleState [⟨7, sampleMesh⟩, ⟨0, sampleMesh⟩] 1
      (by decide)).2.2.2.2.2 rfl 2 (by decide) (by decide)
  refine ⟨hsel, ?_⟩
  rw [heq]
  decide

/-- Counterexample to C14 as stated. On the initial table, whose three slots are unused
(id 0), the lookup for a local entity of id 0 selects slot 0 and the replica tick decodes
that slot into the entity, replacing `sampleMesh` by the empty geometry and reporting
nothing. The same happens on the table a primary tick with the entities of ids 5 and 9
leaves: slot 2 was never written and carries id 0, the lookup for the entity of id 0
selects it, and the entity's mesh is replaced by the empty geometry. -/
theorem lookup_selects_unused_slot_for_id_zero :
    (SharedState.init.meshes 0).id = 0 ∧
      findSlot SharedState.init 0 maxVoices 0 = some 0 ∧
      onAnimateReplica SharedState.init [⟨0, sampleMesh⟩] = some ([⟨0, Mesh.empty⟩], []) ∧
      ((onAnimatePrimary SharedState.init [emptyVoice 5, emptyVoice 9]).map fun st' =>
        ((st'.meshes 0).id, (st'.meshes 1).id, (st'.meshes 2).id,
          findSlot st' 0 maxVoices 0)) = some (5, 9, 0, some 2) ∧
      ((onAnimatePrimary SharedState.init [emptyVoice 5, emptyVoice 9]).bind fun st' =>
        onAnimateReplica st' [⟨0, sampleMesh⟩]) = some ([⟨0, Mesh.empty⟩], []) ∧
      sampleMesh ≠ Mesh.empty := by
  refine ⟨by decide, by decide, by decide, by decide, by decide, by decide⟩

/-- C15 (as amended). Id uniqueness in a snapshot: for every prior table and every
sequence of active entities with pairwise distinct ids, those of the first `min n 3`
lying in `1 .. 65535`, the primary tick returns, the slots it writes carry pairwise
distinct ids, each equal to the id of its entity, and none of them carries the sentinel
id 0. -/
theorem snapshot_ids_distinct (st : SharedState) (vs : List MeshVoice)
    (huniq : ∀ i j (hi : i < vs.length) (hj : j < vs.length), i ≠ j → vs[i].id ≠ vs[j].id)
    (hrange : ∀ k (hk : k < vs.length), k < 3 → 1 ≤ vs[k].id ∧ vs[k].id < 65536) :
    ∃ st', onAnimatePrimary st vs = some st' ∧
      (∀ (i : Fin maxVoices) (hi : i.val < vs.length),
        ((st'.meshes i).id : Int) = vs[i.val].id ∧ (st'.meshes i).id ≠ 0) ∧
      (∀ i j : Fin maxVoices, i.val < vs.length → j.val < vs.length → i ≠ j →
        (st'.meshes i).id ≠ (st'.meshes j).id) := by
  obtain ⟨st', h1, _, hval⟩ := onAnimatePrimary_spec st vs
  have hids : ∀ (i : Fin maxVoices) (hi : i.val < vs.length),
      ((st'.meshes i).id : Int) = vs[i.val].id := by
    intro i hi
    obtain ⟨r, _, hs⟩ := hval i hi
    rw [hs]
    have := hrange i.val hi i.isLt
    exact toU16_of_range _ (by omega) this.2
  refine ⟨st', h1, ?_, ?_⟩
  · intro i hi
    refine ⟨hids i hi, fun h0 => ?_⟩
    have h := hids i hi
    rw [h0] at h
    have := hrange i.val hi i.isLt
    have h' : (0 : Int) = vs[i.val].id := h
    omega
  · intro i j hi hj hij hsame
    have hne : i.val ≠ j.val := fun h => hij (Fin.ext h)
    apply huniq i.val j.val hi hj hne
    rw [← hids i hi, ← hids j hj, hsame]

/-- Witness of C15 (as amended): the entities of ids 5 and 9 on the initial table. -/
theorem snapshot_ids_distinct_witness :
    ∃ st', onAnimatePrimary SharedState.init [emptyVoice 5, emptyVoice 9] = some st' ∧
      ((st'.meshes 0).id : Int) = 5 ∧ ((st'.meshes 1).id : Int) = 9 ∧
      (st'.meshes 0).id ≠ (st'.meshes 1).id ∧
      (st'.meshes 0).id ≠ 0 ∧ (st'.meshes 1).id ≠ 0 := by
  obtain ⟨st', h1, h2, h3⟩ := snapshot_ids_distinct SharedState.init
    [emptyVoice 5, emptyVoice 9]
    (by
      intro i j hi hj hij
      simp only [List.length_cons, List.length_nil] at hi hj
      interval_cases i <;> interval_cases j <;> simp_all [emptyVoice])
    (by
      intro k hk _
      simp only [List.length_cons, List.length_nil] at hk
      interval_cases k <;> simp [emptyVoice])
  exact ⟨st', h1, (h2 0 (by decide)).1, (h2 1 (by decide)).1,
    h3 0 1 (by decide) (by decide) (by decide), (h2 0 (by decide)).2, (h2 1 (by decide)).2⟩

/-- Counterexample to C15 as stated: the three entities of the pairwise distinct ids
`65537, 1, 65536` (empty meshes) are written as the slot ids `1, 1, 0`: two written
slots carry the same id and one carries the sentinel id 0. -/
theorem snapshot_ids_65537_1_65536 :
    (onAnimatePrimary SharedState.init
        [emptyVoice 65537, emptyVoice 1, emptyVoice 65536]).map
      (fun st' => ((st'.meshes 0).id, (st'.meshes 1).id, (st'.meshes 2).id)) =
      some (1, 1, 0) := by
  decide

/-! ## Invariants of the primary tick -/

/-- C16. Capacity invariant of the table: starting from the initial table (all ids and
counts 0), every run of primary ticks, over any sequences of active entities, returns,
and every slot of the table it leaves satisfies
`3*meshVertices + meshIndeces + 4*meshColors <= 64`. -/
theorem capacity_invariant (ticks : List (List MeshVoice)) :
    ∃ st', primaryTicks SharedState.init ticks = some st' ∧
      ∀ i, 3 * (st'.meshes i).meshVertices + (st'.meshes i).meshIndeces
        + 4 * (st'.meshes i).meshColors ≤ 64 := by
  obtain ⟨st', h, hfit⟩ := primaryTicks_fits ticks SharedState.init init_fits
  exact ⟨st', h, hfit⟩

/-- C17. Stale trailing slots: for every prior table and every sequence of `n` active
entities, the primary tick returns and leaves every slot at a position `p` with
`min n 3 <= p < 3` unchanged in id, counts and payload. -/
theorem trailing_slots_unchanged (st : SharedState) (vs : List MeshVoice) :
    ∃ st', onAnimatePrimary st vs = some st' ∧
      ∀ p : Fin maxVoices, min vs.length 3 ≤ p.val →
        (st'.meshes p).id = (st.meshes p).id ∧
        (st'.meshes p).meshData = (st.meshes p).meshData ∧
        (st'.meshes p).meshVertices = (st.meshes p).meshVertices ∧
        (st'.meshes p).meshIndeces = (st.meshes p).meshIndeces ∧
        (st'.meshes p).meshColors = (st.meshes p).meshColors := by
  obtain ⟨st', h1, hframe, _⟩ := onAnimatePrimary_spec st vs
  refine ⟨st', h1, fun p hp => ?_⟩
  have hp3 : p.val < 3 := p.isLt
  rw [hframe p (by omega)]
  exact ⟨rfl, rfl, rfl, rfl, rfl⟩

/-- Witness of C17: on `staleState`, a tick with the two entities of ids 5 and 9 leaves
slot 2 with the id 7 it carried. -/
theorem trailing_slots_unchanged_witness :
    ∃ st', onAnimatePrimary staleState [emptyVoice 5, emptyVoice 9] = some st' ∧
      (st'.meshes 2).id = 7 := by
  obtain ⟨st', h1, h2⟩ := trailing_slots_unchanged staleState [emptyVoice 5, emptyVoice 9]
  exact ⟨st', h1, (h2 2 (by decide)).1⟩

/-! ## Stale slots and end-to-end replication -/

/-- C18. Stale-slot aliasing exists: from the initial table, after a primary tick with
the voices of ids 5, 9, 7 (the last with `sampleMesh`) and a later primary tick with the
voice of id 5 alone (id 7 is no longer active), slot 2 is as the earlier tick left it; a
replica tick with a local entity of id 7 selects that slot, overwrites the entity's
(empty) mesh with the stale geometry `sampleMesh`, and reports nothing. -/
theorem stale_slot_aliasing :
    ∃ (st0 : SharedState) (earlier later : List MeshVoice) (x : Int) (m stale : Mesh)
      (st1 st2 : SharedState) (i : Fin maxVoices),
      onAnimatePrimary st0 earlier = some st1 ∧ onAnimatePrimary st1 later = some st2 ∧
      (⟨x, stale⟩ : MeshVoice) ∈ earlier ∧ (∀ v ∈ later, v.id ≠ x) ∧
      later.length ≤ i.val ∧ st2.meshes i = st1.meshes i ∧
      findSlot st2 x maxVoices 0 = some i ∧
      meshDeserialize m (st2.meshes i).meshData (st2.meshes i).meshVertices
        (st2.meshes i).meshIndeces (st2.meshes i).meshColors = some stale ∧
      stale ≠ m ∧
      onAnimateReplica st2 [⟨x, m⟩] = some ([⟨x, stale⟩], []) := by
  obtain ⟨st1, h1, _, _⟩ := onAnimatePrimary_spec SharedState.init earlierVoices
  obtain ⟨st2, h2, hframe, _⟩ := onAnimatePrimary_spec st1 laterVoices
  have e1 : ((onAnimatePrimary SharedState.init earlierVoices).bind fun s1 =>
      (onAnimatePrimary s1 laterVoices).bind fun s2 =>
        some (findSlot s2 7 maxVoices 0)) = some (some 2) := by decide
  have e2 : ((onAnimatePrimary SharedState.init earlierVoices).bind fun s1 =>
      (onAnimatePrimary s1 laterVoices).bind fun s2 =>
        meshDeserialize Mesh.empty (s2.meshes 2).meshData (s2.meshes 2).meshVertices
          (s2.meshes 2).meshIndeces (s2.meshes 2).meshColors) = some sampleMesh := by decide
  have e3 : ((onAnimatePrimary SharedState.init earlierVoices).bind fun s1 =>
      (onAnimatePrimary s1 laterVoices).bind fun s2 =>
        onAnimateReplica s2 [⟨7, Mesh.empty⟩]) = some ([⟨7, sampleMesh⟩], []) := by decide
  simp only [h1, h2, Option.some_bind, Option.some.injEq] at e1 e2 e3
  refine ⟨SharedState.init, earlierVoices, laterVoices, 7, Mesh.empty, sampleMesh, st1, st2, 2,
    h1, h2, by decide, ?_, by decide, hframe 2 (by decide), e1, e2, by decide, e3⟩
  intro v hv
  simp only [laterVoices, List.mem_singleton] at hv
  subst hv
  decide

/-- C19 (as amended). End-to-end replication despite stale slots: for every prior table
and every sequence of active entities with pairwise distinct ids, let `k < min n 3` be a
position whose entity, and the entities before it, have ids in `0 .. 65535`, and whose
mesh fits the capacity and has index values exactly representable as a `float`. Then the
primary tick returns, the replica's lookup for that id selects slot `k` (never a slot at
a later position), and every replica entity carrying that id ends the replica tick with
vertex, index and colour lists equal to the primary entity's. -/
theorem end_to_end_replication (st : SharedState) (vs rs : List MeshVoice)
    (huniq : ∀ i j (hi : i < vs.length) (hj : j < vs.length), i ≠ j → vs[i].id ≠ vs[j].id)
    (k : Fin maxVoices) (hk : k.val < vs.length)
    (hrange : ∀ j (hj : j < vs.length), j ≤ k.val → 0 ≤ vs[j].id ∧ vs[j].id < 65536)
    (hfit : 3 * vs[k.val].mesh.vertices.length + vs[k.val].mesh.indices.length
      + 4 * vs[k.val].mesh.colors.length ≤ 64)
    (hexact : ∀ i ∈ vs[k.val].mesh.indices, F32Exact i)
    (p : Nat) (hp : p < rs.length) (hid : rs[p].id = vs[k.val].id) :
    ∃ st', onAnimatePrimary st vs = some st' ∧
      findSlot st' rs[p].id maxVoices 0 = some k ∧
      onAnimateReplica st' rs =
        ((onAnimateReplica st' (rs.take p)).bind fun a =>
         (onAnimateReplica st' (rs.drop (p + 1))).bind fun b =>
         some (a.1 ++ ⟨rs[p].id, vs[k.val].mesh⟩ :: b.1, a.2 ++ b.2)) ∧
      (∀ r, onAnimateReplica st' rs = some r →
        r.1[p]? = some ⟨rs[p].id, vs[k.val].mesh⟩) ∧
      onAnimateReplica st' [rs[p]] = some ([⟨rs[p].id, vs[k.val].mesh⟩], []) := by
  obtain ⟨st', h1, _, hval⟩ := onAnimatePrimary_spec st vs
  have hids : ∀ (j : Fin maxVoices) (hj : j.val < vs.length), j.val ≤ k.val →
      ((st'.meshes j).id : Int) = vs[j.val].id := by
    intro j hj hjk
    obtain ⟨r, _, hs⟩ := hval j hj
    rw [hs]
    have := hrange j.val hj hjk
    exact toU16_of_range _ this.1 this.2
  have hfind : findSlot st' rs[p].id maxVoices 0 = some k := by
    rw [hid]
    refine findSlot_first st' _ k (hids k hk (Nat.le_refl _)) (fun j hj => ?_)
    have hjk : j.val < k.val := hj
    have hjn : j.val < vs.length := by omega
    rw [hids j hjn (by omega)]
    exact huniq j.val k.val hjn hk (by omega)
  have hdec : ∀ target, meshDeserialize target (st'.meshes k).meshData
      (st'.meshes k).meshVertices (st'.meshes k).meshIndeces (st'.meshes k).meshColors =
      some vs[k.val].mesh := by
    intro target
    obtain ⟨r, hr, hs⟩ := hval k hk
    obtain ⟨d', hd', _, hv, hi, hc⟩ := meshSerialize_fit vs[k.val].mesh (st.meshes k).meshData hfit
    rw [hd'] at hr
    cases hr
    rw [hs]
    exact meshDeserialize_of_layout vs[k.val].mesh target d' hv
      (fun j hj => ⟨_, hi j hj, f32ToU32_u32ToF32 _ (hexact _ (List.getElem_mem _))⟩) hc
  have heq := replicaLoop_at_matched st' rs p hp k hfind
  simp only [hdec, Option.some_bind] at heq
  refine ⟨st', h1, hfind, heq, ?_, ?_⟩
  · intro r hr
    have hr' : replicaLoop st' rs = some r := hr
    rw [heq] at hr'
    simp only [Option.bind_eq_some] at hr'
    obtain ⟨a, ha, b, _, hr'⟩ := hr'
    simp only [Option.some.injEq] at hr'
    subst hr'
    have hlen := replicaLoop_length st' (rs.take p) a ha
    rw [List.length_take_of_le (Nat.le_of_lt hp)] at hlen
    exact getElem?_append_cons_of_length _ _ _ p hlen
  · simp only [onAnimateReplica, replicaLoop, hfind, hdec, Option.some_bind]

/-- Witness of C19 (as amended): the primary entities of ids 5 (`sampleMesh`) and 9 on
the table `staleState` (whose slot 2 carries a stale id), and the replica entities of
ids 9 and 5; the replica entity of id 5 ends with `sampleMesh`. -/
theorem end_to_end_replication_witness :
    ∃ st', onAnimatePrimary staleState [⟨5, sampleMesh⟩, emptyVoice 9] = some st' ∧
      findSlot st' 5 maxVoices 0 = some 0 ∧
      onAnimateReplica st' [⟨5, Mesh.empty⟩] = some ([⟨5, sampleMesh⟩], []) := by
  obtain ⟨st', h1, h2, _, _, h5⟩ := end_to_end_replication staleState
    [⟨5, sampleMesh⟩, emptyVoice 9] [⟨9, sampleMesh⟩, ⟨5, Mesh.empty⟩]
    (by
      intro i j hi hj hij
      simp only [List.length_cons, List.length_nil] at hi hj
      interval_cases i <;> interval_cases j <;> simp_all [emptyVoice])
    0 (by decide)
    (by
      intro j hj hj0
      have : j = 0 := by simpa using hj0
      subst this
      simp)
    (by decide)
    (by
      intro i hi
      have hi' : i ∈ [0, 16777216] := hi
      simp only [List.mem_cons, List.mem_singleton, List.not_mem_nil, or_false] at hi'
      rcases hi' with h | h
      · exact ⟨0, by decide, by simp [h], by simp [h]⟩
      · exact ⟨1, by decide, by simp [h]; decide, by simp [h]⟩)
    1 (by decide) (by decide)
  exact ⟨st', h1, h2, h5⟩

/-- Counterexample to C19 as stated, in two ways. First, the primary entity of id 5 with
the one index `16777217` (within the capacity): the replica entity of id 5 ends with the
index `16777216`. Second, the primary entities of the distinct ids `65537` (with
`sampleMesh`) and `1` (empty mesh): the replica entity of id 1 ends with `sampleMesh`,
decoded from slot 0, and not with the empty lists of the primary entity of id 1. -/
theorem replication_fails_index_and_id :
    ((onAnimatePrimary SharedState.init [⟨5, ⟨[], [16777217], []⟩⟩]).bind fun st' =>
        onAnimateReplica st' [⟨5, Mesh.empty⟩]) = some ([⟨5, ⟨[], [16777216], []⟩⟩], []) ∧
    ((onAnimatePrimary SharedState.init [⟨65537, sampleMesh⟩, ⟨1, Mesh.empty⟩]).bind fun st' =>
        onAnimateReplica st' [⟨1, Mesh.empty⟩]) = some ([⟨1, sampleMesh⟩], []) ∧
    sampleMesh ≠ Mesh.empty := by
  refine ⟨by decide, by decide, by decide⟩

/-! ## Bounds safety -/

theorem mem_primaryLoopSlots (vs : List MeshVoice) : ∀ (c p : Nat),
    p ∈ primaryLoopSlots vs c ↔ c ≤ p ∧ p < c + vs.length ∧ p < maxVoices := by
  induction vs with
  | nil =>
    intro c p
    simp only [primaryLoopSlots, List.not_mem_nil, List.length_nil, Nat.add_zero, false_iff]
    omega
  | cons v vs ih =>
    intro c p
    unfold primaryLoopSlots
    by_cases hc : c < maxVoices
    · simp only [hc, if_true, List.mem_cons, ih (c + 1) p, List.length_cons]
      have hc' : c < 3 := hc
      constructor
      · rintro (h | h)
        · subst h
          exact ⟨Nat.le_refl _, by omega, hc⟩
        · exact ⟨by omega, by omega, h.2.2⟩
      · rintro ⟨h1, h2, h3⟩
        by_cases hpc : p = c
        · exact Or.inl hpc
        · exact Or.inr ⟨by omega, by omega, h3⟩
    · simp only [hc, if_false, List.not_mem_nil, List.length_cons, false_iff]
      intro h
      have : p < 3 := h.2.2
      have : ¬ c < 3 := hc
      omega

theorem meshDeserialize_none_of_fits (target : Mesh) (d : MeshData) (nv ni nc : Nat)
    (hfit : 3 * nv + ni + 4 * nc ≤ 64) (h : meshDeserialize target d nv ni nc = none) :
    ∃ j, j < ni ∧ ∃ f, rd d (3 * nv + j) = some f ∧ f32ToU32 f = none := by
  by_contra hno
  have hdec : SlotDecodable ⟨0, d, nv, ni, nc⟩ := by
    refine ⟨hfit, fun j hj f hf => ?_⟩
    cases hconv : f32ToU32 f with
    | none => exact absurd ⟨j, hj, f, hf, hconv⟩ hno
    | some n => exact ⟨n, rfl⟩
  obtain ⟨m, hm⟩ := meshDeserialize_returns ⟨0, d, nv, ni, nc⟩ hdec target
  have hm' : meshDeserialize target d nv ni nc = some m := hm
  rw [h] at hm'
  cases hm'

/-- C20. Bounds safety. An access outside `meshData[0..63]` is the result `none` of the
embedding, so: (1) `meshSerialize` returns for every mesh and payload, that is, it
writes only payload positions below 64; (2) for any number of active entities the
primary tick indexes `meshes[counter]` only at positions below 3, returns, and leaves
every slot it does not index as it was; (3) whenever the counts satisfy
`3*meshVertices + meshIndeces + 4*meshColors <= 64`, every load of `meshDeserialize` is
at a position below 64: the vertex loop returns, every index position holds a value, the
colour loop returns, and `meshDeserialize` can only fail to return through the conversion
of a stored index, never through an out-of-range load; (4) on every table produced from
the initial one by primary ticks, this holds for every slot. -/
theorem bounds_safety :
    (∀ (mesh : Mesh) (d : MeshData), ∃ r, meshSerialize mesh d = some r) ∧
    (∀ (st : SharedState) (vs : List MeshVoice),
      (∀ p ∈ primaryLoopSlots vs 0, p < maxVoices) ∧
      ∃ st', onAnimatePrimary st vs = some st' ∧
        ∀ i : Fin maxVoices, i.val ∉ primaryLoopSlots vs 0 → st'.meshes i = st.meshes i) ∧
    (∀ (target : Mesh) (d : MeshData) (nv ni nc : Nat), 3 * nv + ni + 4 * nc ≤ 64 →
      (∃ vs, deserializeVertices (resize target.vertices nv Vec3f.zero) d 0 =
        some (vs, 3 * nv)) ∧
      (∀ j, j < ni → ∃ f, rd d (3 * nv + j) = some f) ∧
      (∃ cs, deserializeColors (resize target.colors nc Color.white) d (3 * nv + ni) =
        some (cs, 3 * nv + ni + 4 * nc)) ∧
      (meshDeserialize target d nv ni nc = none →
        ∃ j, j < ni ∧ ∃ f, rd d (3 * nv + j) = some f ∧ f32ToU32 f = none)) ∧
    (∀ ticks : List (List MeshVoice),
      ∃ st', primaryTicks SharedState.init ticks = some st' ∧
        ∀ (i : Fin maxVoices) (target : Mesh),
          3 * (st'.meshes i).meshVertices + (st'.meshes i).meshIndeces
            + 4 * (st'.meshes i).meshColors ≤ 64 ∧
          (meshDeserialize target (st'.meshes i).meshData (st'.meshes i).meshVertices
              (st'.meshes i).meshIndeces (st'.meshes i).meshColors = none →
            ∃ j, j < (st'.meshes i).meshIndeces ∧ ∃ f,
              rd (st'.meshes i).meshData (3 * (st'.meshes i).meshVertices + j) = some f ∧
              f32ToU32 f = none)) := by
  refine ⟨meshSerialize_total, ?_, ?_, ?_⟩
  · intro st vs
    refine ⟨fun p hp => ((mem_primaryLoopSlots vs 0 p).mp hp).2.2, ?_⟩
    obtain ⟨st', h1, hframe, _⟩ := onAnimatePrimary_spec st vs
    refine ⟨st', h1, fun i hi => hframe i ?_⟩
    by_contra hlt
    exact hi ((mem_primaryLoopSlots vs 0 i.val).mpr ⟨Nat.zero_le _, by omega, i.isLt⟩)
  · intro target d nv ni nc hfit
    refine ⟨?_, ?_, ?_, meshDeserialize_none_of_fits target d nv ni nc hfit⟩
    · obtain ⟨vs, hvs⟩ := deserializeVertices_returns
        (resize target.vertices nv Vec3f.zero) d 0 (by rw [length_resize]; omega)
      rw [length_resize, Nat.zero_add] at hvs
      exact ⟨vs, hvs⟩
    · intro j hj
      exact rd_of_lt d (3 * nv + j) (by omega)
    · obtain ⟨cs, hcs⟩ := deserializeColors_returns
        (resize target.colors nc Color.white) d (3 * nv + ni) (by rw [length_resize]; omega)
      rw [length_resize] at hcs
      exact ⟨cs, hcs⟩
  · intro ticks
    obtain ⟨st', h, hfit⟩ := primaryTicks_fits ticks SharedState.init init_fits
    exact ⟨st', h, fun i target => ⟨hfit i,
      meshDeserialize_none_of_fits target _ _ _ _ (hfit i)⟩⟩

end DistributedMesh2
